/-
Verification of `scripts/db/sync_validators.py`.

The script is a build-time generator: a static schema catalog (`SCHEMAS`)
built from small type-constructor helpers, a command builder
(`build_collmod_commands`), and a recursive bsonType → JSON-Schema
translator (`convert_bson_schema`).

We embed the Python value domain as an inductive `Value` (JSON-like trees,
with mappings modelled as insertion-ordered association lists, matching
Python dict semantics for the unique-key dictionaries the script builds),
and translate each function of the source faithfully.  Fallible Python
operations (`.items()` on a non-mapping, `dict.get` with an unhashable
key) are modelled by `Option`: `none` is a raised exception.
-/
import Mathlib

namespace SyncValidators

/-- The Python/JSON value domain used by the script: scalars, lists and
insertion-ordered string-keyed mappings. -/
inductive Value where
  | vNull : Value
  | vBool : Bool → Value
  | vInt : Int → Value
  | vStr : String → Value
  | vList : List Value → Value
  | vDict : List (String × Value) → Value
deriving Repr

namespace Value

/-- Python dict `d.get(k)`: first (unique) binding of `k`. -/
def dget (d : List (String × Value)) (k : String) : Option Value :=
  match d with
  | [] => none
  | (k', v) :: rest => if k' = k then some v else dget rest k

/-- Python dict assignment `d[k] = v`: replace in place if the key is present,
otherwise append at the end (insertion order). -/
def dset (d : List (String × Value)) (k : String) (v : Value) :
    List (String × Value) :=
  match d with
  | [] => [(k, v)]
  | (k', v') :: rest =>
      if k' = k then (k, v) :: rest else (k', v') :: dset rest k v

/-- Python dict `d.setdefault(k, v)`: no-op when the key is present,
otherwise append the binding at the end. -/
def dsetdefault (d : List (String × Value)) (k : String) (v : Value) :
    List (String × Value) :=
  if (dget d k).isSome then d else d ++ [(k, v)]

end Value

open Value

/-! ### The type-constructor helpers (source lines 23–52) -/

def NUMERIC_TYPES : List String := ["int", "long", "double", "decimal"]

/-- The helper `_with_null` (source lines 26–27), i.e. `list(dict.fromkeys([*values, "null"]))`: append `"null"` and remove
duplicates keeping the first occurrence. -/
def _with_null (values : List String) : List String :=
  go [] (values ++ ["null"])
where
  go (seen : List String) : List String → List String
    | [] => []
    | x :: xs => if x ∈ seen then go seen xs else x :: go (x :: seen) xs

def number_type (nullable : Bool) : Value :=
  .vDict [("bsonType",
    .vList ((if nullable then _with_null NUMERIC_TYPES else NUMERIC_TYPES).map .vStr))]

def string_type (nullable : Bool) : Value :=
  if nullable then .vDict [("bsonType", .vList [.vStr "string", .vStr "null"])]
  else .vDict [("bsonType", .vStr "string")]

def bool_type (nullable : Bool) : Value :=
  if nullable then .vDict [("bsonType", .vList [.vStr "bool", .vStr "null"])]
  else .vDict [("bsonType", .vStr "bool")]

def date_type (nullable : Bool) : Value :=
  if nullable then .vDict [("bsonType", .vList [.vStr "date", .vStr "null"])]
  else .vDict [("bsonType", .vStr "date")]

def object_id (nullable : Bool) : Value :=
  if nullable then .vDict [("bsonType", .vList [.vStr "objectId", .vStr "null"])]
  else .vDict [("bsonType", .vStr "objectId")]

/-- The helper `array_of(item_schema)` (source lines 51–52): `{"bsonType": "array", "items": deepcopy(item_schema)}`.
On pure values `deepcopy` is the identity; aliasing is modelled separately by
the heap semantics below. -/
def array_of (item_schema : Value) : Value :=
  .vDict [("bsonType", .vStr "array"), ("items", item_schema)]

/-! ### The schema catalog (source lines 55–514) -/

def CLINICAL_NOTE_SCHEMA : Value :=
  .vDict [("bsonType", .vStr "object"),
    ("properties", .vDict [
      ("author", object_id true),
      ("note", string_type false),
      ("createdAt", date_type true)]),
    ("additionalProperties", .vBool true)]

def LINE_ITEM_SCHEMA : Value :=
  .vDict [("bsonType", .vStr "object"),
    ("properties", .vDict [
      ("line_id", string_type false),
      ("description", string_type false),
      ("quantity", number_type false),
      ("unit_price", number_type false),
      ("discount_amount", number_type true),
      ("total", number_type false),
      ("appointment_id", number_type true),
      ("service_date", date_type true),
      ("meta", string_type true),
      ("notes", string_type true)]),
    ("additionalProperties", .vBool true)]

def TREATMENT_SLOT_SCHEMA : Value :=
  .vDict [("bsonType", .vStr "object"),
    ("properties", .vDict [
      ("day_of_week", number_type false),
      ("start_time", string_type false),
      ("end_time", string_type false),
      ("location", string_type true)]),
    ("required", .vList [.vStr "day_of_week", .vStr "start_time", .vStr "end_time"]),
    ("additionalProperties", .vBool true)]

def TREATMENT_NOTE_ATTACHMENT : Value :=
  .vDict [("bsonType", .vStr "object"),
    ("properties", .vDict [
      ("fileName", string_type true),
      ("fileUrl", string_type true)]),
    ("additionalProperties", .vBool true)]

def usersSchema : Value :=
  .vDict [("bsonType", .vStr "object"),
    ("required", .vList [.vStr "username", .vStr "password", .vStr "role", .vStr "active"]),
    ("properties", .vDict [
      ("_id", object_id false),
      ("username", string_type false),
      ("email", string_type true),
      ("password", string_type false),
      ("role", .vDict [("bsonType", .vStr "string"),
        ("enum", .vList [.vStr "admin", .vStr "therapist", .vStr "receptionist"])]),
      ("employeeID", number_type true),
      ("administrator", bool_type false),
      ("active", bool_type false),
      ("lastLoginAt", date_type true),
      ("failedLoginAttempts", number_type true),
      ("lockedAt", date_type true),
      ("passwordResetToken", string_type true),
      ("passwordResetExpires", date_type true),
      ("twoFactorEnabled", bool_type false),
      ("twoFactorSecret", string_type true),
      ("twoFactorTempSecret", string_type true),
      ("twoFactorVerifiedAt", date_type true),
      ("createdAt", date_type true),
      ("updatedAt", date_type true)]),
    ("additionalProperties", .vBool true)]

def patientsSchema : Value :=
  .vDict [("bsonType", .vStr "object"),
    ("required", .vList [.vStr "patient_id", .vStr "first_name", .vStr "surname",
      .vStr "email", .vStr "phone"]),
    ("properties", .vDict [
      ("_id", object_id false),
      ("patient_id", number_type false),
      ("first_name", string_type false),
      ("surname", string_type false),
      ("preferred_name", string_type true),
      ("date_of_birth", date_type true),
      ("gender", .vDict [("bsonType", .vStr "string"),
        ("enum", .vList [.vStr "female", .vStr "male", .vStr "non-binary",
          .vStr "other", .vStr "unknown"])]),
      ("email", string_type false),
      ("phone", string_type false),
      ("secondary_phone", string_type true),
      ("primary_contact_name", string_type true),
      ("primary_contact_email", string_type true),
      ("primary_contact_phone", string_type true),
      ("address", .vDict [("bsonType", .vList [.vStr "object", .vStr "null"])]),
      ("emergency_contact", .vDict [("bsonType", .vList [.vStr "object", .vStr "null"])]),
      ("insurance", .vDict [("bsonType", .vList [.vStr "object", .vStr "null"])]),
      ("medical_alerts", array_of (string_type false)),
      ("primary_therapist_id", number_type true),
      ("primaryTherapist", object_id true),
      ("status", .vDict [("bsonType", .vStr "string"),
        ("enum", .vList [.vStr "active", .vStr "inactive", .vStr "archived"])]),
      ("tags", array_of (string_type false)),
      ("billing_mode", .vDict [("bsonType", .vStr "string"),
        ("enum", .vList [.vStr "individual", .vStr "monthly"])]),
      ("consent_signed_at", date_type true),
      ("notes_summary", string_type true),
      ("createdAt", date_type true),
      ("updatedAt", date_type true)]),
    ("additionalProperties", .vBool true)]

def appointmentsSchema : Value :=
  .vDict [("bsonType", .vStr "object"),
    ("required", .vList [.vStr "appointment_id", .vStr "patient_id", .vStr "employeeID",
      .vStr "date", .vStr "location", .vStr "first_name", .vStr "surname", .vStr "contact",
      .vStr "treatment_id", .vStr "treatment_description", .vStr "treatment_count",
      .vStr "price"]),
    ("properties", .vDict [
      ("_id", object_id false),
      ("appointment_id", number_type false),
      ("series_id", string_type true),
      ("patient_id", number_type false),
      ("patient", object_id true),
      ("employeeID", number_type false),
      ("therapist", object_id true),
      ("date", date_type false),
      ("duration_minutes", number_type true),
      ("location", string_type false),
      ("room", string_type true),
      ("first_name", string_type false),
      ("surname", string_type false),
      ("contact", string_type false),
      ("completed", bool_type false),
      ("status", .vDict [("bsonType", .vStr "string"),
        ("enum", .vList [.vStr "scheduled", .vStr "completed", .vStr "cancelled",
          .vStr "cancelled_same_day", .vStr "other"])]),
      ("completion_status", .vDict [("bsonType", .vStr "string"),
        ("enum", .vList [.vStr "scheduled", .vStr "completed", .vStr "completed_manual",
          .vStr "cancelled_same_day", .vStr "cancelled_reschedule", .vStr "other"])]),
      ("completion_note", string_type true),
      ("cancellation_reason", string_type true),
      ("cancelled_at", date_type true),
      ("treatment_id", number_type false),
      ("treatment_description", string_type false),
      ("treatment_count", number_type false),
      ("price", number_type false),
      ("recurrence", .vDict [("bsonType", .vList [.vStr "object", .vStr "null"])]),
      ("treatment_notes", string_type true),
      ("billing_mode", .vDict [("bsonType", .vStr "string"),
        ("enum", .vList [.vStr "individual", .vStr "monthly"])]),
      ("clinical_notes", array_of CLINICAL_NOTE_SCHEMA),
      ("createdBy", object_id true),
      ("updatedBy", object_id true),
      ("createdAt", date_type true),
      ("updatedAt", date_type true)]),
    ("additionalProperties", .vBool true)]

def invoicesSchema : Value :=
  .vDict [("bsonType", .vStr "object"),
    ("required", .vList [.vStr "invoice_number", .vStr "patient_id", .vStr "subtotal",
      .vStr "total_due", .vStr "balance_due"]),
    ("properties", .vDict [
      ("_id", object_id false),
      ("invoice_id", number_type true),
      ("invoice_number", string_type false),
      ("patient_id", number_type false),
      ("client_id", number_type true),
      ("appointment_id", number_type true),
      ("appointment_ids", array_of (number_type false)),
      ("patient", object_id true),
      ("billing_contact_name", string_type true),
      ("billing_contact_email", string_type true),
      ("billing_contact_phone", string_type true),
      ("status", .vDict [("bsonType", .vStr "string"),
        ("enum", .vList [.vStr "draft", .vStr "sent", .vStr "partially_paid",
          .vStr "paid", .vStr "void"])]),
      ("line_items", array_of LINE_ITEM_SCHEMA),
      ("totals", .vDict [("bsonType", .vList [.vStr "object", .vStr "null"])]),
      ("subtotal", number_type false),
      ("discount", .vDict [("bsonType", .vList [.vStr "object", .vStr "null"])]),
      ("total_due", number_type false),
      ("total_paid", number_type true),
      ("balance_due", number_type false),
      ("issue_date", date_type true),
      ("due_date", date_type true),
      ("sent_at", date_type true),
      ("paid_at", date_type true),
      ("pdf_path", string_type true),
      ("pdf_url", string_type true),
      ("pdf_generated_at", date_type true),
      ("html_snapshot", string_type true),
      ("currency", string_type true),
      ("notes", string_type true),
      ("createdBy", object_id true),
      ("updatedBy", object_id true),
      ("createdAt", date_type true),
      ("updatedAt", date_type true)]),
    ("additionalProperties", .vBool true)]

def paymentsSchema : Value :=
  .vDict [("bsonType", .vStr "object"),
    ("required", .vList [.vStr "payment_id", .vStr "patient_id", .vStr "amount_paid"]),
    ("properties", .vDict [
      ("_id", object_id false),
      ("payment_id", number_type false),
      ("invoice_id", number_type true),
      ("invoice_number", string_type true),
      ("patient_id", number_type false),
      ("appointment_id", number_type true),
      ("treatment_id", number_type true),
      ("treatment_description", string_type true),
      ("amount_paid", number_type false),
      ("currency", string_type true),
      ("payment_date", date_type true),
      ("method", .vDict [("bsonType", .vStr "string"),
        ("enum", .vList [.vStr "card", .vStr "cash", .vStr "transfer",
          .vStr "insurance", .vStr "other"])]),
      ("reference", string_type true),
      ("status", .vDict [("bsonType", .vStr "string"),
        ("enum", .vList [.vStr "applied", .vStr "pending", .vStr "failed",
          .vStr "refunded"])]),
      ("notes", string_type true),
      ("recordedBy", object_id true),
      ("createdAt", date_type true),
      ("updatedAt", date_type true)]),
    ("additionalProperties", .vBool true)]

def servicesSchema : Value :=
  .vDict [("bsonType", .vStr "object"),
    ("required", .vList [.vStr "treatment_id", .vStr "treatment_description", .vStr "price"]),
    ("properties", .vDict [
      ("_id", object_id false),
      ("treatment_id", number_type false),
      ("treatment_description", string_type false),
      ("price", number_type false),
      ("duration_minutes", number_type true),
      ("active", bool_type false),
      ("notes", string_type true),
      ("createdAt", date_type true),
      ("updatedAt", date_type true)]),
    ("additionalProperties", .vBool true)]

def notesSchema : Value :=
  .vDict [("bsonType", .vStr "object"),
    ("required", .vList [.vStr "patient_id", .vStr "note"]),
    ("properties", .vDict [
      ("_id", object_id false),
      ("patient_id", number_type false),
      ("appointment_id", number_type true),
      ("employeeID", number_type true),
      ("author", object_id true),
      ("type", .vDict [("bsonType", .vStr "string"),
        ("enum", .vList [.vStr "treatment", .vStr "communication", .vStr "administrative"])]),
      ("note", string_type false),
      ("visibility", .vDict [("bsonType", .vStr "string"),
        ("enum", .vList [.vStr "private", .vStr "team", .vStr "admin"])]),
      ("date", date_type true),
      ("attachments", array_of TREATMENT_NOTE_ATTACHMENT),
      ("createdBy", object_id true),
      ("updatedBy", object_id true),
      ("createdAt", date_type true),
      ("updatedAt", date_type true)]),
    ("additionalProperties", .vBool true)]

def auditlogsSchema : Value :=
  .vDict [("bsonType", .vStr "object"),
    ("required", .vList [.vStr "event"]),
    ("properties", .vDict [
      ("_id", object_id false),
      ("event", string_type false),
      ("user", object_id true),
      ("user_role", string_type true),
      ("actor", object_id true),
      ("actor_role", string_type true),
      ("ip_address", string_type true),
      ("metadata", .vDict [("bsonType", .vList [.vStr "object", .vStr "null"])]),
      ("success", bool_type false),
      ("createdAt", date_type true),
      ("updatedAt", date_type true)]),
    ("additionalProperties", .vBool true)]

def communicationsSchema : Value :=
  .vDict [("bsonType", .vStr "object"),
    ("required", .vList [.vStr "communication_id", .vStr "patient_id", .vStr "type",
      .vStr "content"]),
    ("properties", .vDict [
      ("_id", object_id false),
      ("communication_id", number_type false),
      ("patient_id", number_type false),
      ("patient", object_id true),
      ("employeeID", number_type true),
      ("user", object_id true),
      ("date", date_type true),
      ("type", .vDict [("bsonType", .vStr "string"),
        ("enum", .vList [.vStr "email", .vStr "sms", .vStr "phone",
          .vStr "in_person", .vStr "note"])]),
      ("subject", string_type true),
      ("content", string_type false),
      ("delivery_status", .vDict [("bsonType", .vStr "string"),
        ("enum", .vList [.vStr "pending", .vStr "sent", .vStr "delivered", .vStr "failed"])]),
      ("metadata", .vDict [("bsonType", .vList [.vStr "object", .vStr "null"])]),
      ("createdAt", date_type true),
      ("updatedAt", date_type true)]),
    ("additionalProperties", .vBool true)]

def clinicsettingsSchema : Value :=
  .vDict [("bsonType", .vStr "object"),
    ("properties", .vDict [
      ("_id", object_id false),
      ("branding", .vDict [("bsonType", .vList [.vStr "object", .vStr "null"])]),
      ("invoice_prefix", string_type true),
      ("email_provider", .vDict [("bsonType", .vStr "string"),
        ("enum", .vList [.vStr "sendgrid", .vStr "postmark", .vStr "smtp", .vStr "none"])]),
      ("email_templates", array_of (.vDict [("bsonType", .vStr "object"),
        ("additionalProperties", .vBool true)])),
      ("notification_preferences", .vDict [("bsonType", .vList [.vStr "object", .vStr "null"])]),
      ("updatedBy", object_id true),
      ("createdAt", date_type true),
      ("updatedAt", date_type true)]),
    ("additionalProperties", .vBool true)]

def datasubjectrequestsSchema : Value :=
  .vDict [("bsonType", .vStr "object"),
    ("required", .vList [.vStr "request_id", .vStr "patient_id", .vStr "type",
      .vStr "dueAt", .vStr "requesterName"]),
    ("properties", .vDict [
      ("_id", object_id false),
      ("request_id", number_type false),
      ("patient_id", number_type false),
      ("type", .vDict [("bsonType", .vStr "string"),
        ("enum", .vList [.vStr "access", .vStr "rectification", .vStr "erasure",
          .vStr "restriction", .vStr "portability"])]),
      ("status", .vDict [("bsonType", .vStr "string"),
        ("enum", .vList [.vStr "open", .vStr "in_progress", .vStr "fulfilled",
          .vStr "rejected"])]),
      ("requesterName", string_type false),
      ("requesterEmail", string_type true),
      ("receivedAt", date_type true),
      ("dueAt", date_type false),
      ("completedAt", date_type true),
      ("handledBy", object_id true),
      ("notes", string_type true),
      ("history", array_of (.vDict [("bsonType", .vStr "object"),
        ("additionalProperties", .vBool true)])),
      ("createdAt", date_type true),
      ("updatedAt", date_type true)]),
    ("additionalProperties", .vBool true)]

def refreshtokensSchema : Value :=
  .vDict [("bsonType", .vStr "object"),
    ("required", .vList [.vStr "user", .vStr "tokenId", .vStr "expiresAt"]),
    ("properties", .vDict [
      ("_id", object_id false),
      ("user", object_id false),
      ("tokenId", string_type false),
      ("expiresAt", date_type false),
      ("revokedAt", date_type true),
      ("replacedByTokenId", string_type true),
      ("createdAt", date_type true),
      ("updatedAt", date_type true)]),
    ("additionalProperties", .vBool true)]

def countersSchema : Value :=
  .vDict [("bsonType", .vStr "object"),
    ("required", .vList [.vStr "key"]),
    ("properties", .vDict [
      ("_id", object_id false),
      ("key", string_type false),
      ("value", number_type true),
      ("createdAt", date_type true),
      ("updatedAt", date_type true)]),
    ("additionalProperties", .vBool true)]

def therapistavailabilitiesSchema : Value :=
  .vDict [("bsonType", .vStr "object"),
    ("required", .vList [.vStr "therapist", .vStr "therapist_employee_id",
      .vStr "effective_from"]),
    ("properties", .vDict [
      ("_id", object_id false),
      ("therapist", object_id false),
      ("therapist_employee_id", number_type false),
      ("slots", array_of TREATMENT_SLOT_SCHEMA),
      ("effective_from", date_type false),
      ("effective_to", date_type true),
      ("is_default", bool_type false),
      ("notes", string_type true),
      ("createdAt", date_type true),
      ("updatedAt", date_type true)]),
    ("additionalProperties", .vBool true)]

def treatmentNoteTemplatesSchema : Value :=
  .vDict [("bsonType", .vStr "object"),
    ("required", .vList [.vStr "name", .vStr "body", .vStr "createdBy", .vStr "updatedBy"]),
    ("properties", .vDict [
      ("_id", object_id false),
      ("name", string_type false),
      ("body", string_type false),
      ("tags", array_of (string_type false)),
      ("createdBy", object_id false),
      ("updatedBy", object_id false),
      ("archived", bool_type false),
      ("createdAt", date_type true),
      ("updatedAt", date_type true)]),
    ("additionalProperties", .vBool true)]

def profitLossEntriesSchema : Value :=
  .vDict [("bsonType", .vStr "object"),
    ("required", .vList [.vStr "date", .vStr "type", .vStr "amount", .vStr "createdBy",
      .vStr "updatedBy"]),
    ("properties", .vDict [
      ("_id", object_id false),
      ("entry_id", number_type true),
      ("date", date_type false),
      ("type", .vDict [("bsonType", .vStr "string"),
        ("enum", .vList [.vStr "income", .vStr "expense"])]),
      ("category", string_type true),
      ("description", string_type true),
      ("amount", number_type false),
      ("source", .vDict [("bsonType", .vStr "string"),
        ("enum", .vList [.vStr "manual", .vStr "invoice"])]),
      ("invoice_number", string_type true),
      ("invoice_id", object_id true),
      ("createdBy", object_id false),
      ("updatedBy", object_id false),
      ("createdAt", date_type true),
      ("updatedAt", date_type true)]),
    ("additionalProperties", .vBool true)]

/-- The catalog `SCHEMAS` (source lines 103–514): the ordered catalog, collection
name → collection schema, in source insertion order. -/
def SCHEMAS : List (String × Value) :=
  [("users", usersSchema),
   ("patients", patientsSchema),
   ("appointments", appointmentsSchema),
   ("invoices", invoicesSchema),
   ("payments", paymentsSchema),
   ("services", servicesSchema),
   ("notes", notesSchema),
   ("auditlogs", auditlogsSchema),
   ("communications", communicationsSchema),
   ("clinicsettings", clinicsettingsSchema),
   ("datasubjectrequests", datasubjectrequestsSchema),
   ("refreshtokens", refreshtokensSchema),
   ("counters", countersSchema),
   ("therapistavailabilities", therapistavailabilitiesSchema),
   ("treatment_note_templates", treatmentNoteTemplatesSchema),
   ("profit_loss_entries", profitLossEntriesSchema)]

/-- The command builder `build_collmod_commands` (source lines 517–526): one command per
catalog entry, in catalog iteration order. -/
def build_collmod_commands : List Value :=
  SCHEMAS.map (fun p =>
    .vDict [("collMod", .vStr p.1),
            ("validator", .vDict [("$jsonSchema", p.2)]),
            ("validationLevel", .vStr "moderate"),
            ("validationAction", .vStr "error")])

/-! ### The translator (source lines 529–583) -/

/-- The lookup table `TYPE_MAP` (source lines 529–541). -/
def TYPE_MAP : List (String × String) :=
  [("bool", "boolean"), ("string", "string"), ("object", "object"),
   ("array", "array"), ("objectId", "string"), ("date", "string"),
   ("int", "number"), ("long", "number"), ("double", "number"),
   ("decimal", "number"), ("null", "null")]

/-- Python `TYPE_MAP.get(s, s)` for a string key `s`. -/
def typeMapGet (s : String) : String := (TYPE_MAP.lookup s).getD s

/-- Python `bson_type if isinstance(bson_type, list) else [bson_type]`
(source line 549): the list of declared type entries. -/
def btTypes : Value → List Value
  | .vList l => l
  | v => [v]

/-- One iteration of the `for entry in types` loop body applied to `entry`:
`TYPE_MAP.get(entry, entry)`.  A list or mapping entry is unhashable in
Python, so `dict.get` raises `TypeError` (modelled as `none`); every other
value is hashable, absent from the string-keyed `TYPE_MAP`, and returned
unchanged. -/
def mapTypeEntry : Value → Option Value
  | .vStr s => some (.vStr (typeMapGet s))
  | .vList _ => none
  | .vDict _ => none
  | v => some v

def mapTypeEntries : List Value → Option (List Value)
  | [] => some []
  | e :: es => do
      let c ← mapTypeEntry e
      let cs ← mapTypeEntries es
      pure (c :: cs)

/-- Python `entry == "objectId"` etc.: equality of a value with a string
literal. -/
def isStrLit (s : String) : Value → Bool
  | .vStr t => t = s
  | _ => false

/-- Python `converted[0] if len(converted) == 1 else converted`
(source lines 559–562): one resulting type is stored as a scalar,
several as the list itself. -/
def scalarOrList : List Value → Value
  | [c] => c
  | cs => .vList cs

/-- The `bsonType`-handling block of `convert_bson_schema`
(source lines 547–566): build the initial `result` dict from the declared
types, adding the default `pattern`/`format` via `setdefault`. -/
def typeBlock (bson_type : Value) : Option (List (String × Value)) := do
  let types := btTypes bson_type
  let converted ← mapTypeEntries types
  let needsPat := types.any (isStrLit "objectId")
  let needsFmt := types.any (isStrLit "date")
  let r : List (String × Value) := [("type", scalarOrList converted)]
  let r := if needsPat then dsetdefault r "pattern" (.vStr "^[a-fA-F0-9]{24}$") else r
  let r := if needsFmt then dsetdefault r "format" (.vStr "date-time") else r
  pure r

mutual

/-- The translator `convert_bson_schema` (source lines 544–583), with a raised Python
exception modelled as `none`. -/
def convert_bson_schema : Value → Option Value
  | .vDict node =>
      let base : Option (List (String × Value)) :=
        match dget node "bsonType" with
        | none => some []
        | some .vNull => some []
        | some bt => typeBlock bt
      match base with
      | none => none
      | some acc => convertEntries acc node
  | .vList l =>
      match convertList l with
      | none => none
      | some l' => some (.vList l')
  | v => some v
termination_by structural v => v

/-- The `for key, value in node.items()` loop of `convert_bson_schema`
(source lines 567–579), threading the `result` dict. -/
def convertEntries (acc : List (String × Value)) :
    List (String × Value) → Option Value
  | [] => some (.vDict acc)
  | (key, value) :: rest =>
      if key = "bsonType" then convertEntries acc rest
      else if key = "properties" then
        match value with
        | .vDict props =>
            match convertProps props with
            | none => none
            | some props' =>
                convertEntries (dset acc "properties" (.vDict props')) rest
        | _ => none
      else if key = "items" then
        match value with
        | .vList items =>
            match convertList items with
            | none => none
            | some items' =>
                convertEntries (dset acc "items" (.vList items')) rest
        | w =>
            match convert_bson_schema w with
            | none => none
            | some v' => convertEntries (dset acc "items" v') rest
      else
        match convert_bson_schema value with
        | none => none
        | some v' => convertEntries (dset acc key v') rest
termination_by structural l => l

/-- The comprehension `{prop: convert_bson_schema(schema) for prop, schema in value.items()}` of the `properties` branch. -/
def convertProps : List (String × Value) → Option (List (String × Value))
  | [] => some []
  | (k, v) :: rest =>
      match convert_bson_schema v with
      | none => none
      | some v' =>
          match convertProps rest with
          | none => none
          | some rest' => some ((k, v') :: rest')
termination_by structural l => l

/-- The comprehension `[convert_bson_schema(item) for item in value]`. -/
def convertList : List Value → Option (List Value)
  | [] => some []
  | x :: xs =>
      match convert_bson_schema x with
      | none => none
      | some x' =>
          match convertList xs with
          | none => none
          | some xs' => some (x' :: xs')
termination_by structural l => l

end

/-! ### The emitter (source lines 586–599), pure core.

`json.dumps(obj, indent=2)` is modelled character for character for the
value domain the script serializes (ASCII strings, no floats). -/

def escapeChar (c : Char) : String :=
  if c = '"' then "\\\""
  else if c = '\\' then "\\\\"
  else if c = '\n' then "\\n"
  else if c = '\t' then "\\t"
  else if c = '\r' then "\\r"
  else String.singleton c

def escapeString (s : String) : String :=
  String.join (s.toList.map escapeChar)

def jsonStr (s : String) : String := "\"" ++ escapeString s ++ "\""

/-- Indentation of `2 * n` spaces. -/
def pad (n : Nat) : String := String.mk (List.replicate (2 * n) ' ')

mutual

/-- Python `json.dumps(v, indent=2)` rendered at nesting depth `indent`. -/
def dumps (indent : Nat) : Value → String
  | .vNull => "null"
  | .vBool b => if b then "true" else "false"
  | .vInt n => toString n
  | .vStr s => jsonStr s
  | .vList l =>
      if l.isEmpty then "[]"
      else "[\n" ++ String.intercalate ",\n" (dumpsList (indent + 1) l) ++
           "\n" ++ pad indent ++ "]"
  | .vDict es =>
      if es.isEmpty then "\x7b\x7d"
      else "\x7b\n" ++ String.intercalate ",\n" (dumpsEntries (indent + 1) es) ++
           "\n" ++ pad indent ++ "\x7d"
termination_by structural v => v

def dumpsList (indent : Nat) : List Value → List String
  | [] => []
  | x :: xs => (pad indent ++ dumps indent x) :: dumpsList indent xs
termination_by structural l => l

def dumpsEntries (indent : Nat) : List (String × Value) → List String
  | [] => []
  | (k, v) :: es =>
      (pad indent ++ jsonStr k ++ ": " ++ dumps indent v) :: dumpsEntries indent es
termination_by structural l => l

end

/-- The text written to `apply_validators_commands.json`. -/
def commands_text : String := dumps 0 (.vList build_collmod_commands)

/-- The admin schema document built by `main` (source lines 590–595);
`none` if the translation of some catalog entry raises. -/
def schema_doc : Option Value := do
  let props ← convertProps SCHEMAS
  pure (.vDict [
    ("$schema", .vStr "http://json-schema.org/draft-07/schema#"),
    ("title", .vStr "Bridges Physiotherapy Database Schemas"),
    ("type", .vStr "object"),
    ("properties", .vDict props)])

/-- The pure core of `main`: the two serialized documents a run writes
(commands file text, admin schema file text). -/
def main_outputs : Option (String × String) := do
  let doc ← schema_doc
  pure (commands_text, dumps 0 doc)

/-! ### Auxiliary notions used to state the claims -/

/-- Scalars of the value domain (everything except lists and mappings). -/
def isScalar : Value → Bool
  | .vList _ => false
  | .vDict _ => false
  | _ => true

/-- A scalar, or a list whose elements are all scalars (the shape of
`required`, `enum` and `additionalProperties` values). -/
def isScalarOrScalarList : Value → Bool
  | .vList l => l.all isScalar
  | v => isScalar v

/-- The keys of an association list are pairwise distinct; every mapping a
Python dict can represent satisfies this. -/
abbrev NodupKeys (d : List (String × Value)) : Prop := (d.map Prod.fst).Nodup

/-- The last binding of `k` in `d` (with distinct keys this is `dget`);
used to phrase the loop lemmas without a distinctness assumption. -/
def dgetLast (d : List (String × Value)) (k : String) : Option Value :=
  match d with
  | [] => none
  | (k', v) :: rest =>
      match dgetLast rest k with
      | some w => some w
      | none => if k' = k then some v else none

mutual

/-- Output invariant of the translator: no mapping node has a key named
`"bsonType"`, except that keys of a `properties` mapping are field names
and are exempt (the translator preserves them verbatim). -/
def noBson : Value → Bool
  | .vDict es => noBsonEntries es
  | .vList l => noBsonList l
  | _ => true
termination_by structural v => v

def noBsonEntries : List (String × Value) → Bool
  | [] => true
  | (k, v) :: rest =>
      (if k = "properties" then
        match v with
        | .vDict props => noBsonProps props
        | w => noBson w
       else !(k == "bsonType") && noBson v) && noBsonEntries rest
termination_by structural l => l

def noBsonProps : List (String × Value) → Bool
  | [] => true
  | (_, v) :: rest => noBson v && noBsonProps rest
termination_by structural l => l

def noBsonList : List Value → Bool
  | [] => true
  | x :: xs => noBson x && noBsonList xs
termination_by structural l => l

end

mutual

/-- Some mapping node at some depth has a key named `k` (counting keys of
`properties` mappings as well). -/
def hasKeyDeep (k : String) : Value → Bool
  | .vDict es => hasKeyDeepEntries k es
  | .vList l => hasKeyDeepList k l
  | _ => false
termination_by structural v => v

def hasKeyDeepEntries (k : String) : List (String × Value) → Bool
  | [] => false
  | (k', v) :: rest => (k' == k) || hasKeyDeep k v || hasKeyDeepEntries k rest
termination_by structural l => l

def hasKeyDeepList (k : String) : List Value → Bool
  | [] => false
  | x :: xs => hasKeyDeep k x || hasKeyDeepList k xs
termination_by structural l => l

end

/-- The declared types of a `bsonType` value are all scalars (so that
Python `TYPE_MAP.get(entry, entry)` cannot raise on an unhashable key).
An absent key and a stored `None` skip the type block and are fine. -/
def btOk : Option Value → Bool
  | none => true
  | some (.vList l) => l.all isScalar
  | some v => isScalar v

mutual

/-- Well-formed schema trees: every `properties` value is a mapping (so
`value.items()` cannot raise `AttributeError`) and every declared type
entry is a scalar.  On these the translator is total. -/
def wfV : Value → Bool
  | .vDict d => btOk (dget d "bsonType") && wfEntries d
  | .vList l => wfL l
  | _ => true
termination_by structural v => v

def wfEntries : List (String × Value) → Bool
  | [] => true
  | (k, v) :: rest =>
      (if k = "bsonType" then true
       else if k = "properties" then
        match v with
        | .vDict props => wfProps props
        | _ => false
       else wfV v) && wfEntries rest
termination_by structural l => l

def wfProps : List (String × Value) → Bool
  | [] => true
  | (_, v) :: rest => wfV v && wfProps rest
termination_by structural l => l

def wfL : List Value → Bool
  | [] => true
  | x :: xs => wfV x && wfL xs
termination_by structural l => l

end

/-- The `collMod` target of a command record. -/
def commandTarget : Value → Option Value
  | .vDict r => dget r "collMod"
  | _ => none

/-! ### A heap semantics for deep-copy isolation

Python values are objects on a heap; `array_of` builds a fresh result
dict whose `"items"` entry is `deepcopy(item_schema)` — a graph of fresh
cells carrying the same tree of values as the shared constant.  We model
the heap as a list of nodes (the address of a cell is its index, fresh
cells are appended), evaluation of `array_of(item_schema)` as the
allocation of a fresh graph holding the value `array_of item_schema`,
mutation as overwriting one cell, and observation as reading the value
tree rooted at an address. -/

/-- One heap cell: a scalar object, or a composite object whose children
are heap addresses. -/
inductive HNode where
  | hNull : HNode
  | hBool : Bool → HNode
  | hInt : Int → HNode
  | hStr : String → HNode
  | hList : List Nat → HNode
  | hDict : List (String × Nat) → HNode
deriving Repr

/-- The store: cell `a` is `cells[a]`; fresh addresses are appended. -/
structure Heap where
  cells : List HNode
deriving Repr

def Heap.get (h : Heap) (a : Nat) : Option HNode := h.cells.get? a

def Heap.size (h : Heap) : Nat := h.cells.length

/-- In-place mutation of the object at address `a`. -/
def Heap.write (h : Heap) (a : Nat) (n : HNode) : Heap := ⟨h.cells.set a n⟩

/-- The addresses a cell refers to. -/
def HNode.ptrs : HNode → List Nat
  | .hList as => as
  | .hDict es => es.map Prod.snd
  | _ => []

/-- Every cell points below the top of the heap. -/
def Heap.closed (h : Heap) : Prop :=
  ∀ a n, h.get a = some n → ∀ b ∈ n.ptrs, b < h.size

mutual

/-- Store a pure value as a graph of entirely fresh cells (children
first, root last) and return the root address.  This is what `deepcopy`
yields for a tree-shaped source object. -/
def alloc : Value → Heap → Nat × Heap
  | .vNull, h => (h.size, ⟨h.cells ++ [.hNull]⟩)
  | .vBool b, h => (h.size, ⟨h.cells ++ [.hBool b]⟩)
  | .vInt n, h => (h.size, ⟨h.cells ++ [.hInt n]⟩)
  | .vStr s, h => (h.size, ⟨h.cells ++ [.hStr s]⟩)
  | .vList l, h =>
      let p := allocList l h
      (p.2.size, ⟨p.2.cells ++ [.hList p.1]⟩)
  | .vDict es, h =>
      let p := allocDict es h
      (p.2.size, ⟨p.2.cells ++ [.hDict p.1]⟩)
termination_by structural v => v

def allocList : List Value → Heap → List Nat × Heap
  | [], h => ([], h)
  | x :: xs, h =>
      let p := alloc x h
      let q := allocList xs p.2
      (p.1 :: q.1, q.2)
termination_by structural l => l

def allocDict : List (String × Value) → Heap → List (String × Nat) × Heap
  | [], h => ([], h)
  | (k, v) :: rest, h =>
      let p := alloc v h
      let q := allocDict rest p.2
      ((k, p.1) :: q.1, q.2)
termination_by structural l => l

end

mutual

/-- Read back the value tree rooted at `a` (fuelled: an arbitrary heap
may contain cycles). -/
def readV : Nat → Heap → Nat → Option Value
  | 0, _, _ => none
  | fuel + 1, h, a =>
      match h.get a with
      | none => none
      | some .hNull => some .vNull
      | some (.hBool b) => some (.vBool b)
      | some (.hInt n) => some (.vInt n)
      | some (.hStr s) => some (.vStr s)
      | some (.hList as) =>
          match readVList fuel h as with
          | none => none
          | some vs => some (.vList vs)
      | some (.hDict aes) =>
          match readVDict fuel h aes with
          | none => none
          | some es => some (.vDict es)
termination_by structural fuel => fuel

def readVList : Nat → Heap → List Nat → Option (List Value)
  | 0, _, _ => none
  | _ + 1, _, [] => some []
  | fuel + 1, h, a :: as =>
      match readV fuel h a with
      | none => none
      | some v =>
          match readVList fuel h as with
          | none => none
          | some vs => some (v :: vs)
termination_by structural fuel => fuel

def readVDict : Nat → Heap → List (String × Nat) → Option (List (String × Value))
  | 0, _, _ => none
  | _ + 1, _, [] => some []
  | fuel + 1, h, (k, a) :: aes =>
      match readV fuel h a with
      | none => none
      | some v =>
          match readVDict fuel h aes with
          | none => none
          | some es => some ((k, v) :: es)
termination_by structural fuel => fuel

end

/-- The runtime effect of evaluating `array_of(item_schema)`: allocate
the fresh result dict together with the fresh deep copy of the item
schema, returning the root address. -/
def array_ofH (item_schema : Value) (h : Heap) : Nat × Heap :=
  alloc (array_of item_schema) h

/-- Postcondition of an allocation step from `h` to `h'` returning
`roots`: the heap only grows, the old cells are untouched, the returned
roots are fresh, and every fresh cell points only into the fresh
region. -/
def AllocPost (h h' : Heap) (roots : List Nat) : Prop :=
  h.size ≤ h'.size ∧
  (∀ a ∈ roots, h.size ≤ a ∧ a < h'.size) ∧
  (∀ i, i < h.size → h'.get i = h.get i) ∧
  (∀ i n, h.size ≤ i → h'.get i = some n →
    ∀ b ∈ HNode.ptrs n, h.size ≤ b ∧ b < h'.size)

/-! ### Basic association-list lemmas -/

theorem dget_append (d₁ d₂ : List (String × Value)) (k : String) :
    dget (d₁ ++ d₂) k =
      match dget d₁ k with
      | some v => some v
      | none => dget d₂ k := by
  induction d₁ with
  | nil => simp [dget]
  | cons e rest ih =>
      obtain ⟨k', v⟩ := e
      by_cases h : k' = k <;> simp [dget, h, ih]

theorem dget_dset_self (d : List (String × Value)) (k : String) (v : Value) :
    dget (dset d k v) k = some v := by
  induction d with
  | nil => simp [dset, dget]
  | cons e rest ih =>
      obtain ⟨k', v'⟩ := e
      by_cases h : k' = k <;> simp [dset, dget, h, ih]

theorem dget_dset_ne (d : List (String × Value)) (k k' : String) (v : Value)
    (h : k' ≠ k) : dget (dset d k' v) k = dget d k := by
  induction d with
  | nil => simp [dset, dget, h]
  | cons e rest ih =>
      obtain ⟨k'', v'⟩ := e
      by_cases h2 : k'' = k'
      · subst h2; simp [dset, dget, h]
      · simp [dset, h2]
        by_cases h3 : k'' = k <;> simp [dget, h3, ih]

theorem dget_dsetdefault_ne (d : List (String × Value)) (k k' : String) (v : Value)
    (h : k' ≠ k) : dget (dsetdefault d k' v) k = dget d k := by
  unfold dsetdefault
  split
  · rfl
  · rw [dget_append]
    cases hd : dget d k <;> simp [dget, h]

theorem dget_dsetdefault_self (d : List (String × Value)) (k : String) (v : Value) :
    dget (dsetdefault d k v) k =
      some (match dget d k with | some w => w | none => v) := by
  unfold dsetdefault
  cases hd : dget d k with
  | some w => simp [hd, Option.isSome]
  | none => simp [hd, Option.isSome, dget_append, dget]

theorem dget_eq_none_iff (d : List (String × Value)) (k : String) :
    dget d k = none ↔ k ∉ d.map Prod.fst := by
  induction d with
  | nil => simp [dget]
  | cons e rest ih =>
      obtain ⟨k', v⟩ := e
      rw [List.map_cons, List.mem_cons]
      by_cases h : k' = k
      · subst h; simp [dget]
      · simp only [dget, if_neg h, ih, not_or]
        constructor
        · intro hmem
          exact ⟨fun heq => h heq.symm, hmem⟩
        · intro hmem
          exact hmem.2

theorem dgetLast_eq_none_iff (d : List (String × Value)) (k : String) :
    dgetLast d k = none ↔ k ∉ d.map Prod.fst := by
  induction d with
  | nil => simp [dgetLast]
  | cons e rest ih =>
      obtain ⟨k', v⟩ := e
      rw [List.map_cons, List.mem_cons]
      simp only [dgetLast]
      cases hr : dgetLast rest k with
      | some w =>
          have hk : k ∈ rest.map Prod.fst := by
            by_contra hmem
            rw [ih.mpr hmem] at hr
            exact Option.noConfusion hr
          simp [hk]
      | none =>
          have hk : k ∉ rest.map Prod.fst := ih.mp hr
          by_cases h : k' = k
          · subst h; simp [hk]
          · simp only [if_neg h, not_or]
            constructor
            · intro _
              exact ⟨fun heq => h heq.symm, hk⟩
            · intro _
              trivial

theorem dgetLast_cons_ne (k' : String) (v : Value) (rest : List (String × Value))
    (k : String) (h : k' ≠ k) :
    dgetLast ((k', v) :: rest) k = dgetLast rest k := by
  simp only [dgetLast]
  cases hr : dgetLast rest k <;> simp [h]

theorem dgetLast_eq_dget (d : List (String × Value)) (k : String)
    (h : NodupKeys d) : dgetLast d k = dget d k := by
  induction d with
  | nil => rfl
  | cons e rest ih =>
      obtain ⟨k', v⟩ := e
      rw [NodupKeys, List.map_cons, List.nodup_cons] at h
      by_cases hk : k' = k
      · have hnone : dget rest k = none := (dget_eq_none_iff rest k).mpr (hk ▸ h.1)
        have hlast : dgetLast rest k = none := (dgetLast_eq_none_iff rest k).mpr (hk ▸ h.1)
        simp [dgetLast, dget, hlast, hk]
      · rw [dgetLast_cons_ne _ _ _ _ hk, ih h.2]
        simp [dget, hk]

/-! ### Unfolding equations for the translator loop -/

theorem convertEntries_nil (acc : List (String × Value)) :
    convertEntries acc [] = some (.vDict acc) := rfl

theorem convertEntries_cons_bson (acc : List (String × Value)) (value : Value)
    (rest : List (String × Value)) :
    convertEntries acc (("bsonType", value) :: rest) = convertEntries acc rest := by
  simp [convertEntries]

theorem convertEntries_cons_props (acc props rest : List (String × Value)) :
    convertEntries acc (("properties", .vDict props) :: rest) =
      (match convertProps props with
       | none => none
       | some props' => convertEntries (dset acc "properties" (.vDict props')) rest) := by
  simp [convertEntries]

theorem convertEntries_cons_items_list (acc : List (String × Value)) (items : List Value)
    (rest : List (String × Value)) :
    convertEntries acc (("items", .vList items) :: rest) =
      (match convertList items with
       | none => none
       | some items' => convertEntries (dset acc "items" (.vList items')) rest) := by
  simp [convertEntries]

theorem convertEntries_cons_other (acc : List (String × Value)) (key : String)
    (value : Value) (rest : List (String × Value))
    (hb : key ≠ "bsonType") (hp : key ≠ "properties") (hi : key ≠ "items") :
    convertEntries acc ((key, value) :: rest) =
      (match convert_bson_schema value with
       | none => none
       | some v' => convertEntries (dset acc key v') rest) := by
  cases value <;> simp [convertEntries, hb, hp, hi]

/-! ### The loop lemma: what `convertEntries` stores under each key -/

theorem convertEntries_frame (k : String) (hk1 : k ≠ "bsonType")
    (hk2 : k ≠ "properties") (hk3 : k ≠ "items") :
    ∀ (l acc r : List (String × Value)),
      convertEntries acc l = some (.vDict r) →
      dget r k =
        (match dgetLast l k with
         | none => dget acc k
         | some v => convert_bson_schema v) := by
  intro l
  induction l with
  | nil =>
      intro acc r h
      simp only [convertEntries, Option.some.injEq] at h
      cases h
      rfl
  | cons e rest ih =>
      intro acc r h
      obtain ⟨key, value⟩ := e
      by_cases hb : key = "bsonType"
      · subst hb
        simp only [convertEntries, if_pos rfl] at h
        rw [dgetLast_cons_ne _ _ _ _ (fun heq => hk1 heq.symm)]
        exact ih acc r h
      · by_cases hp : key = "properties"
        · subst hp
          rw [dgetLast_cons_ne _ _ _ _ (fun heq => hk2 heq.symm)]
          cases value with
          | vDict props =>
              simp only [convertEntries] at h
              simp only [hb, if_false, if_true, ite_true, ite_false,
                reduceCtorEq, reduceIte] at h
              cases hcp : convertProps props with
              | none => simp [hcp] at h
              | some props' =>
                  simp only [hcp] at h
                  rw [ih _ r h]
                  cases hdl : dgetLast rest k
                  · simp [dget_dset_ne _ _ _ _ (fun heq : "properties" = k => hk2 heq.symm)]
                  · rfl
          | vNull => simp [convertEntries] at h
          | vBool b => simp [convertEntries] at h
          | vInt n => simp [convertEntries] at h
          | vStr s => simp [convertEntries] at h
          | vList l2 => simp [convertEntries] at h
        · by_cases hi : key = "items"
          · subst hi
            rw [dgetLast_cons_ne _ _ _ _ (fun heq => hk3 heq.symm)]
            have hset : ∀ v', dget (dset acc "items" v') k = dget acc k :=
              fun v' => dget_dset_ne _ _ _ _ (fun heq : "items" = k => hk3 heq.symm)
            cases value with
            | vList items =>
                simp only [convertEntries] at h
                simp only [hb, hp, if_false, if_true, ite_true, ite_false,
                  reduceCtorEq, reduceIte] at h
                cases hcl : convertList items with
                | none => simp [hcl] at h
                | some items' =>
                    simp only [hcl] at h
                    rw [ih _ r h]
                    cases hdl : dgetLast rest k
                    · simp [hset]
                    · rfl
            | vNull =>
                simp only [convertEntries] at h
                simp only [hb, hp, if_false, if_true, ite_true, ite_false,
                  reduceCtorEq, reduceIte] at h
                cases hc : convert_bson_schema .vNull with
                | none => simp [hc] at h
                | some v' =>
                    simp only [hc] at h
                    rw [ih _ r h]
                    cases hdl : dgetLast rest k
                    · simp [hset]
                    · rfl
            | vBool b =>
                simp only [convertEntries] at h
                simp only [hb, hp, if_false, if_true, ite_true, ite_false,
                  reduceCtorEq, reduceIte] at h
                cases hc : convert_bson_schema (.vBool b) with
                | none => simp [hc] at h
                | some v' =>
                    simp only [hc] at h
                    rw [ih _ r h]
                    cases hdl : dgetLast rest k
                    · simp [hset]
                    · rfl
            | vInt n =>
                simp only [convertEntries] at h
                simp only [hb, hp, if_false, if_true, ite_true, ite_false,
                  reduceCtorEq, reduceIte] at h
                cases hc : convert_bson_schema (.vInt n) with
                | none => simp [hc] at h
                | some v' =>
                    simp only [hc] at h
                    rw [ih _ r h]
                    cases hdl : dgetLast rest k
                    · simp [hset]
                    · rfl
            | vStr s =>
                simp only [convertEntries] at h
                simp only [hb, hp, if_false, if_true, ite_true, ite_false,
                  reduceCtorEq, reduceIte] at h
                cases hc : convert_bson_schema (.vStr s) with
                | none => simp [hc] at h
                | some v' =>
                    simp only [hc] at h
                    rw [ih _ r h]
                    cases hdl : dgetLast rest k
                    · simp [hset]
                    · rfl
            | vDict d2 =>
                simp only [convertEntries] at h
                simp only [hb, hp, if_false, if_true, ite_true, ite_false,
                  reduceCtorEq, reduceIte] at h
                cases hc : convert_bson_schema (.vDict d2) with
                | none => simp [hc] at h
                | some v' =>
                    simp only [hc] at h
                    rw [ih _ r h]
                    cases hdl : dgetLast rest k
                    · simp [hset]
                    · rfl
          · rw [convertEntries_cons_other acc key value rest hb hp hi] at h
            cases hc : convert_bson_schema value with
            | none => simp [hc] at h
            | some v' =>
                simp only [hc] at h
                rw [ih _ r h]
                by_cases hkey : key = k
                · subst hkey
                  simp only [dgetLast]
                  cases hdl : dgetLast rest key
                  · simp [dget_dset_self, hc]
                  · rfl
                · rw [dgetLast_cons_ne _ _ _ _ hkey]
                  cases hdl : dgetLast rest k
                  · simp [dget_dset_ne _ _ _ _ hkey]
                  · rfl

/-! ### Size bookkeeping for strong induction over the value tree -/

theorem sizeOf_snd_lt_vDict (kv : String × Value) (es : List (String × Value))
    (h : kv ∈ es) : sizeOf kv.2 < sizeOf (Value.vDict es) := by
  have h1 := List.sizeOf_lt_of_mem h
  obtain ⟨k, v⟩ := kv
  simp only [Value.vDict.sizeOf_spec]
  simp [Prod.mk.sizeOf_spec] at h1
  omega

theorem sizeOf_mem_lt_vList (x : Value) (l : List Value) (h : x ∈ l) :
    sizeOf x < sizeOf (Value.vList l) := by
  have h1 := List.sizeOf_lt_of_mem h
  simp only [Value.vList.sizeOf_spec]
  omega

theorem sizeOf_entries_lt_vDict (es : List (String × Value)) :
    sizeOf es < sizeOf (Value.vDict es) := by
  simp [Value.vDict.sizeOf_spec]

theorem sizeOf_elems_lt_vList (l : List Value) :
    sizeOf l < sizeOf (Value.vList l) := by
  simp [Value.vList.sizeOf_spec]

theorem sizeOf_snd_lt_cons (k : String) (v : Value) (rest : List (String × Value)) :
    sizeOf v < sizeOf ((k, v) :: rest) := by
  simp only [List.cons.sizeOf_spec, Prod.mk.sizeOf_spec]
  omega

theorem sizeOf_rest_lt_cons (e : String × Value) (rest : List (String × Value)) :
    sizeOf rest < sizeOf (e :: rest) := by
  simp only [List.cons.sizeOf_spec]
  omega

theorem sizeOf_mem_lt_list (x : Value) (l : List Value) (h : x ∈ l) :
    sizeOf x < sizeOf l := List.sizeOf_lt_of_mem h

theorem sizeOf_rest_lt_cons' (x : Value) (xs : List Value) :
    sizeOf xs < sizeOf (x :: xs) := by
  simp only [List.cons.sizeOf_spec]
  omega

theorem sizeOf_snd_lt_entries (kv : String × Value) (es : List (String × Value))
    (h : kv ∈ es) : sizeOf kv.2 < sizeOf es := by
  have h1 := List.sizeOf_lt_of_mem h
  obtain ⟨k, v⟩ := kv
  show sizeOf v < sizeOf es
  simp [Prod.mk.sizeOf_spec] at h1
  omega

/-! ### Facts about `convertProps` -/

theorem convertProps_forall₂ (props props' : List (String × Value))
    (h : convertProps props = some props') :
    List.Forall₂ (fun a b : String × Value =>
      a.1 = b.1 ∧ convert_bson_schema a.2 = some b.2) props props' := by
  induction props generalizing props' with
  | nil =>
      simp only [convertProps, Option.some.injEq] at h
      cases h
      exact List.Forall₂.nil
  | cons e rest ih =>
      obtain ⟨k, v⟩ := e
      simp only [convertProps] at h
      cases hc : convert_bson_schema v with
      | none => rw [hc] at h; exact Option.noConfusion h
      | some v' =>
          rw [hc] at h
          cases hr : convertProps rest with
          | none => rw [hr] at h; exact Option.noConfusion h
          | some rest' =>
              rw [hr] at h
              cases h
              exact List.Forall₂.cons ⟨rfl, hc⟩ (ih _ hr)

theorem convertProps_keys (props props' : List (String × Value))
    (h : convertProps props = some props') :
    props'.map Prod.fst = props.map Prod.fst := by
  have h2 := convertProps_forall₂ props props' h
  clear h
  induction h2 with
  | nil => rfl
  | cons hab _ ih => simp [ih, hab.1]

/-! ### Scalars convert to themselves -/

theorem convert_isScalar (v : Value) (h : isScalar v = true) :
    convert_bson_schema v = some v := by
  cases v <;> simp [isScalar] at h <;> rfl

theorem convertList_scalars (l : List Value) (h : l.all isScalar = true) :
    convertList l = some l := by
  induction l with
  | nil => rfl
  | cons x xs ih =>
      rw [List.all_cons, Bool.and_eq_true] at h
      simp only [convertList, convert_isScalar x h.1, ih h.2]

theorem convert_scalarOrScalarList (v : Value) (h : isScalarOrScalarList v = true) :
    convert_bson_schema v = some v := by
  cases v with
  | vList l =>
      simp only [isScalarOrScalarList] at h
      simp [convert_bson_schema, convertList_scalars l h]
  | vDict es => simp [isScalarOrScalarList, isScalar] at h
  | vNull => rfl
  | vBool b => rfl
  | vInt n => rfl
  | vStr s => rfl

/-! ### The type block: what the `bsonType` handling stores -/

theorem mapTypeEntry_scalar (e c : Value) (h : mapTypeEntry e = some c) :
    isScalar c = true := by
  cases e with
  | vStr s => simp only [mapTypeEntry, Option.some.injEq] at h; cases h; rfl
  | vNull => cases h; rfl
  | vBool b => cases h; rfl
  | vInt n => cases h; rfl
  | vList l => exact Option.noConfusion h
  | vDict d => exact Option.noConfusion h

theorem mapTypeEntries_map_str (ts : List String) :
    mapTypeEntries (ts.map .vStr) =
      some (ts.map (fun t => Value.vStr (typeMapGet t))) := by
  induction ts with
  | nil => rfl
  | cons t ts ih => simp [mapTypeEntries, mapTypeEntry, ih]

theorem mapTypeEntries_scalar (types converted : List Value)
    (h : mapTypeEntries types = some converted) :
    ∀ c ∈ converted, isScalar c = true := by
  induction types generalizing converted with
  | nil =>
      simp only [mapTypeEntries, Option.some.injEq] at h
      cases h
      intro c hc
      exact absurd hc (List.not_mem_nil c)
  | cons e es ih =>
      simp only [mapTypeEntries, Option.bind_eq_bind, Option.bind] at h
      cases he : mapTypeEntry e with
      | none => rw [he] at h; exact Option.noConfusion h
      | some c0 =>
          rw [he] at h
          cases hes : mapTypeEntries es with
          | none => rw [hes] at h; exact Option.noConfusion h
          | some cs0 =>
              rw [hes] at h
              simp only [Option.some.injEq] at h
              cases h
              intro c hc
              rcases List.mem_cons.mp hc with hc | hc
              · cases hc; exact mapTypeEntry_scalar e c0 he
              · exact ih cs0 hes c hc

theorem typeBlock_spec (bt : Value) (acc : List (String × Value))
    (h : typeBlock bt = some acc) :
    ∃ converted, mapTypeEntries (btTypes bt) = some converted ∧
      dget acc "type" = some (scalarOrList converted) ∧
      dget acc "pattern" =
        (if (btTypes bt).any (isStrLit "objectId") then
          some (.vStr "^[a-fA-F0-9]{24}$") else none) ∧
      dget acc "format" =
        (if (btTypes bt).any (isStrLit "date") then
          some (.vStr "date-time") else none) ∧
      (∀ k, k ≠ "type" → k ≠ "pattern" → k ≠ "format" → dget acc k = none) := by
  simp only [typeBlock, Option.bind_eq_bind, Option.bind] at h
  cases hm : mapTypeEntries (btTypes bt) with
  | none => rw [hm] at h; exact Option.noConfusion h
  | some converted =>
      rw [hm] at h
      simp only [Option.pure_def, Option.some.injEq] at h
      refine ⟨converted, rfl, ?_⟩
      subst h
      have hr0type : dget [("type", scalarOrList converted)] "type" =
          some (scalarOrList converted) := rfl
      have hr0other : ∀ k, k ≠ "type" →
          dget [("type", scalarOrList converted)] k = none := by
        intro k hk
        show (if "type" = k then some (scalarOrList converted) else dget [] k) = none
        rw [if_neg (fun heq : "type" = k => hk heq.symm)]
        rfl
      cases hpat : (btTypes bt).any (isStrLit "objectId") with
      | true =>
          cases hfmt : (btTypes bt).any (isStrLit "date") with
          | true =>
              simp only [hpat, hfmt, if_true]
              refine ⟨?_, ?_, ?_, ?_⟩
              · rw [dget_dsetdefault_ne _ _ _ _ (by decide),
                  dget_dsetdefault_ne _ _ _ _ (by decide)]
                exact hr0type
              · rw [dget_dsetdefault_ne _ _ _ _ (by decide), dget_dsetdefault_self,
                  hr0other "pattern" (by decide)]
              · rw [dget_dsetdefault_self, dget_dsetdefault_ne _ _ _ _ (by decide),
                  hr0other "format" (by decide)]
              · intro k hk1 hk2 hk3
                rw [dget_dsetdefault_ne _ _ _ _ (fun heq => hk3 heq.symm),
                  dget_dsetdefault_ne _ _ _ _ (fun heq => hk2 heq.symm)]
                exact hr0other k hk1
          | false =>
              simp only [hpat, hfmt, if_true, Bool.false_eq_true, if_false]
              refine ⟨?_, ?_, ?_, ?_⟩
              · rw [dget_dsetdefault_ne _ _ _ _ (by decide)]
                exact hr0type
              · rw [dget_dsetdefault_self, hr0other "pattern" (by decide)]
              · rw [dget_dsetdefault_ne _ _ _ _ (by decide)]
                exact hr0other "format" (by decide)
              · intro k hk1 hk2 hk3
                rw [dget_dsetdefault_ne _ _ _ _ (fun heq => hk2 heq.symm)]
                exact hr0other k hk1
      | false =>
          cases hfmt : (btTypes bt).any (isStrLit "date") with
          | true =>
              simp only [hpat, hfmt, if_true, Bool.false_eq_true, if_false]
              refine ⟨?_, ?_, ?_, ?_⟩
              · rw [dget_dsetdefault_ne _ _ _ _ (by decide)]
                exact hr0type
              · rw [dget_dsetdefault_ne _ _ _ _ (by decide)]
                exact hr0other "pattern" (by decide)
              · rw [dget_dsetdefault_self, hr0other "format" (by decide)]
              · intro k hk1 hk2 hk3
                rw [dget_dsetdefault_ne _ _ _ _ (fun heq => hk3 heq.symm)]
                exact hr0other k hk1
          | false =>
              simp only [hpat, hfmt, Bool.false_eq_true, if_false]
              exact ⟨hr0type, hr0other "pattern" (by decide),
                hr0other "format" (by decide), fun k hk1 _ _ => hr0other k hk1⟩

/-- Inversion of the translator on a mapping node: the result comes from
running the entry loop on an initial `result` dict `acc` that is empty when
the type field is absent (or an explicit `None`) and is produced by the
type block otherwise. -/
theorem convert_vDict_inv (d : List (String × Value)) (res : Value)
    (h : convert_bson_schema (.vDict d) = some res) :
    ∃ acc, convertEntries acc d = some res ∧
      ((dget d "bsonType" = none ∧ acc = []) ∨
       (dget d "bsonType" = some .vNull ∧ acc = []) ∨
       (∃ bt, dget d "bsonType" = some bt ∧ typeBlock bt = some acc)) := by
  simp only [convert_bson_schema] at h
  cases hbt : dget d "bsonType" with
  | none =>
      rw [hbt] at h
      exact ⟨[], h, Or.inl ⟨rfl, rfl⟩⟩
  | some bt =>
      rw [hbt] at h
      cases bt with
      | vNull => exact ⟨[], h, Or.inr (Or.inl ⟨rfl, rfl⟩)⟩
      | vBool b =>
          replace h : (match typeBlock (Value.vBool b) with
            | none => none
            | some acc => convertEntries acc d) = some res := h
          cases htb : typeBlock (.vBool b) with
          | none => rw [htb] at h; exact Option.noConfusion h
          | some acc =>
              rw [htb] at h
              exact ⟨acc, h, Or.inr (Or.inr ⟨_, rfl, htb⟩)⟩
      | vInt n =>
          replace h : (match typeBlock (Value.vInt n) with
            | none => none
            | some acc => convertEntries acc d) = some res := h
          cases htb : typeBlock (.vInt n) with
          | none => rw [htb] at h; exact Option.noConfusion h
          | some acc =>
              rw [htb] at h
              exact ⟨acc, h, Or.inr (Or.inr ⟨_, rfl, htb⟩)⟩
      | vStr s =>
          replace h : (match typeBlock (Value.vStr s) with
            | none => none
            | some acc => convertEntries acc d) = some res := h
          cases htb : typeBlock (.vStr s) with
          | none => rw [htb] at h; exact Option.noConfusion h
          | some acc =>
              rw [htb] at h
              exact ⟨acc, h, Or.inr (Or.inr ⟨_, rfl, htb⟩)⟩
      | vList l =>
          replace h : (match typeBlock (Value.vList l) with
            | none => none
            | some acc => convertEntries acc d) = some res := h
          cases htb : typeBlock (.vList l) with
          | none => rw [htb] at h; exact Option.noConfusion h
          | some acc =>
              rw [htb] at h
              exact ⟨acc, h, Or.inr (Or.inr ⟨_, rfl, htb⟩)⟩
      | vDict d2 =>
          replace h : (match typeBlock (Value.vDict d2) with
            | none => none
            | some acc => convertEntries acc d) = some res := h
          cases htb : typeBlock (.vDict d2) with
          | none => rw [htb] at h; exact Option.noConfusion h
          | some acc =>
              rw [htb] at h
              exact ⟨acc, h, Or.inr (Or.inr ⟨_, rfl, htb⟩)⟩

/-- What the loop stores under `"properties"`: the recursively translated
properties mapping of the last `properties` entry, or whatever the initial
`result` dict held when the node has none. -/
theorem convertEntries_props_frame :
    ∀ (l acc r : List (String × Value)),
      convertEntries acc l = some (.vDict r) →
      ((dgetLast l "properties" = none →
          dget r "properties" = dget acc "properties") ∧
       (∀ props, dgetLast l "properties" = some (.vDict props) →
          ∃ props', convertProps props = some props' ∧
            dget r "properties" = some (.vDict props'))) := by
  intro l
  induction l with
  | nil =>
      intro acc r h
      simp only [convertEntries, Option.some.injEq] at h
      cases h
      exact ⟨fun _ => rfl, fun props hp => by simp [dgetLast] at hp⟩
  | cons e rest ih =>
      intro acc r h
      obtain ⟨key, value⟩ := e
      by_cases hb : key = "bsonType"
      · subst hb
        rw [convertEntries_cons_bson] at h
        have hne : ("bsonType" : String) ≠ "properties" := by decide
        constructor
        · intro hnone
          rw [dgetLast_cons_ne _ _ _ _ hne] at hnone
          exact (ih acc r h).1 hnone
        · intro props hp2
          rw [dgetLast_cons_ne _ _ _ _ hne] at hp2
          exact (ih acc r h).2 props hp2
      · by_cases hp : key = "properties"
        · subst hp
          cases value with
          | vDict props0 =>
              rw [convertEntries_cons_props] at h
              cases hcp : convertProps props0 with
              | none => rw [hcp] at h; exact Option.noConfusion h
              | some p0' =>
                  rw [hcp] at h
                  have IH := ih (dset acc "properties" (.vDict p0')) r h
                  constructor
                  · intro hnone
                    simp only [dgetLast] at hnone
                    cases hdl : dgetLast rest "properties" with
                    | some w => rw [hdl] at hnone; exact Option.noConfusion hnone
                    | none =>
                        rw [hdl] at hnone
                        simp at hnone
                  · intro props hp2
                    simp only [dgetLast] at hp2
                    cases hdl : dgetLast rest "properties" with
                    | some w =>
                        rw [hdl] at hp2
                        cases hp2
                        exact IH.2 props hdl
                    | none =>
                        rw [hdl] at hp2
                        simp only [if_pos rfl, Option.some.injEq] at hp2
                        cases hp2
                        refine ⟨p0', hcp, ?_⟩
                        rw [IH.1 hdl, dget_dset_self]
          | vNull => simp [convertEntries] at h
          | vBool b => simp [convertEntries] at h
          | vInt n => simp [convertEntries] at h
          | vStr s => simp [convertEntries] at h
          | vList l2 => simp [convertEntries] at h
        · have hne : key ≠ "properties" := hp
          by_cases hi : key = "items"
          · subst hi
            have hne2 : ("items" : String) ≠ "properties" := by decide
            have hsetp : ∀ v', dget (dset acc "items" v') "properties" =
                dget acc "properties" :=
              fun v' => dget_dset_ne _ _ _ _ hne2
            cases value with
            | vList items =>
                rw [convertEntries_cons_items_list] at h
                cases hcl : convertList items with
                | none => rw [hcl] at h; exact Option.noConfusion h
                | some items' =>
                    rw [hcl] at h
                    have IH := ih (dset acc "items" (.vList items')) r h
                    constructor
                    · intro hnone
                      rw [dgetLast_cons_ne _ _ _ _ hne2] at hnone
                      rw [IH.1 hnone, hsetp]
                    · intro props hp2
                      rw [dgetLast_cons_ne _ _ _ _ hne2] at hp2
                      exact IH.2 props hp2
            | vNull =>
                simp only [convertEntries] at h
                simp only [if_false, if_true, ite_true, ite_false,
                  reduceCtorEq, reduceIte] at h
                cases hc : convert_bson_schema .vNull with
                | none => rw [hc] at h; exact Option.noConfusion h
                | some v' =>
                    rw [hc] at h
                    have IH := ih (dset acc "items" v') r h
                    constructor
                    · intro hnone
                      rw [dgetLast_cons_ne _ _ _ _ hne2] at hnone
                      rw [IH.1 hnone, hsetp]
                    · intro props hp2
                      rw [dgetLast_cons_ne _ _ _ _ hne2] at hp2
                      exact IH.2 props hp2
            | vBool b =>
                simp only [convertEntries] at h
                simp only [if_false, if_true, ite_true, ite_false,
                  reduceCtorEq, reduceIte] at h
                cases hc : convert_bson_schema (.vBool b) with
                | none => rw [hc] at h; exact Option.noConfusion h
                | some v' =>
                    rw [hc] at h
                    have IH := ih (dset acc "items" v') r h
                    constructor
                    · intro hnone
                      rw [dgetLast_cons_ne _ _ _ _ hne2] at hnone
                      rw [IH.1 hnone, hsetp]
                    · intro props hp2
                      rw [dgetLast_cons_ne _ _ _ _ hne2] at hp2
                      exact IH.2 props hp2
            | vInt n =>
                simp only [convertEntries] at h
                simp only [if_false, if_true, ite_true, ite_false,
                  reduceCtorEq, reduceIte] at h
                cases hc : convert_bson_schema (.vInt n) with
                | none => rw [hc] at h; exact Option.noConfusion h
                | some v' =>
                    rw [hc] at h
                    have IH := ih (dset acc "items" v') r h
                    constructor
                    · intro hnone
                      rw [dgetLast_cons_ne _ _ _ _ hne2] at hnone
                      rw [IH.1 hnone, hsetp]
                    · intro props hp2
                      rw [dgetLast_cons_ne _ _ _ _ hne2] at hp2
                      exact IH.2 props hp2
            | vStr s =>
                simp only [convertEntries] at h
                simp only [if_false, if_true, ite_true, ite_false,
                  reduceCtorEq, reduceIte] at h
                cases hc : convert_bson_schema (.vStr s) with
                | none => rw [hc] at h; exact Option.noConfusion h
                | some v' =>
                    rw [hc] at h
                    have IH := ih (dset acc "items" v') r h
                    constructor
                    · intro hnone
                      rw [dgetLast_cons_ne _ _ _ _ hne2] at hnone
                      rw [IH.1 hnone, hsetp]
                    · intro props hp2
                      rw [dgetLast_cons_ne _ _ _ _ hne2] at hp2
                      exact IH.2 props hp2
            | vDict d2 =>
                simp only [convertEntries] at h
                simp only [if_false, if_true, ite_true, ite_false,
                  reduceCtorEq, reduceIte] at h
                cases hc : convert_bson_schema (.vDict d2) with
                | none => rw [hc] at h; exact Option.noConfusion h
                | some v' =>
                    rw [hc] at h
                    have IH := ih (dset acc "items" v') r h
                    constructor
                    · intro hnone
                      rw [dgetLast_cons_ne _ _ _ _ hne2] at hnone
                      rw [IH.1 hnone, hsetp]
                    · intro props hp2
                      rw [dgetLast_cons_ne _ _ _ _ hne2] at hp2
                      exact IH.2 props hp2
          · rw [convertEntries_cons_other acc key value rest hb hp hi] at h
            cases hc : convert_bson_schema value with
            | none => rw [hc] at h; exact Option.noConfusion h
            | some v' =>
                rw [hc] at h
                have IH := ih (dset acc key v') r h
                constructor
                · intro hnone
                  rw [dgetLast_cons_ne _ _ _ _ hne] at hnone
                  rw [IH.1 hnone, dget_dset_ne _ _ _ _ hne]
                · intro props hp2
                  rw [dgetLast_cons_ne _ _ _ _ hne] at hp2
                  exact IH.2 props hp2

theorem typeBlock_isSome (bt : Value)
    (h : (mapTypeEntries (btTypes bt)).isSome = true) :
    (typeBlock bt).isSome = true := by
  simp only [typeBlock, Option.bind_eq_bind, Option.bind]
  cases hm : mapTypeEntries (btTypes bt) with
  | none => rw [hm] at h; exact absurd h (by simp)
  | some converted => rfl

/-- A single-entry node `{bsonType: bt}` translates to the dict produced
by the type block alone. -/
theorem convert_bt_only (bt : Value) (acc : List (String × Value))
    (hnn : bt ≠ .vNull)
    (htb : typeBlock bt = some acc) :
    convert_bson_schema (.vDict [("bsonType", bt)]) = some (.vDict acc) := by
  cases bt with
  | vNull => exact absurd rfl hnn
  | vBool b =>
      show (match typeBlock (Value.vBool b) with
        | none => none
        | some acc => convertEntries acc [("bsonType", Value.vBool b)]) = some (.vDict acc)
      rw [htb]
      show convertEntries acc [("bsonType", Value.vBool b)] = some (.vDict acc)
      rw [convertEntries_cons_bson, convertEntries_nil]
  | vInt n =>
      show (match typeBlock (Value.vInt n) with
        | none => none
        | some acc => convertEntries acc [("bsonType", Value.vInt n)]) = some (.vDict acc)
      rw [htb]
      show convertEntries acc [("bsonType", Value.vInt n)] = some (.vDict acc)
      rw [convertEntries_cons_bson, convertEntries_nil]
  | vStr s =>
      show (match typeBlock (Value.vStr s) with
        | none => none
        | some acc => convertEntries acc [("bsonType", Value.vStr s)]) = some (.vDict acc)
      rw [htb]
      show convertEntries acc [("bsonType", Value.vStr s)] = some (.vDict acc)
      rw [convertEntries_cons_bson, convertEntries_nil]
  | vList l =>
      show (match typeBlock (Value.vList l) with
        | none => none
        | some acc => convertEntries acc [("bsonType", Value.vList l)]) = some (.vDict acc)
      rw [htb]
      show convertEntries acc [("bsonType", Value.vList l)] = some (.vDict acc)
      rw [convertEntries_cons_bson, convertEntries_nil]
  | vDict d2 =>
      show (match typeBlock (Value.vDict d2) with
        | none => none
        | some acc => convertEntries acc [("bsonType", Value.vDict d2)]) = some (.vDict acc)
      rw [htb]
      show convertEntries acc [("bsonType", Value.vDict d2)] = some (.vDict acc)
      rw [convertEntries_cons_bson, convertEntries_nil]

/-! ### The claims -/

/-- C1: the translator maps the internal type field through `TYPE_MAP`:
`string` stays `string`, `["string","null"]` stays `["string","null"]`,
`objectId` becomes `string` plus the 24-hex `pattern`, `date` becomes
`string` plus `format: "date-time"`, `["date","null"]` becomes
`["string","null"]` plus the format; in general every declared type name
is looked up in `TYPE_MAP` (unknown names pass through), a single result
is stored as a scalar under `type` and several as an order-preserving
list. -/
theorem c1_type_mapping :
    (convert_bson_schema (.vDict [("bsonType", .vStr "string")]) =
      some (.vDict [("type", .vStr "string")])) ∧
    (convert_bson_schema (.vDict [("bsonType", .vList [.vStr "string", .vStr "null"])]) =
      some (.vDict [("type", .vList [.vStr "string", .vStr "null"])])) ∧
    (convert_bson_schema (.vDict [("bsonType", .vStr "objectId")]) =
      some (.vDict [("type", .vStr "string"),
                    ("pattern", .vStr "^[a-fA-F0-9]{24}$")])) ∧
    (convert_bson_schema (.vDict [("bsonType", .vStr "date")]) =
      some (.vDict [("type", .vStr "string"), ("format", .vStr "date-time")])) ∧
    (convert_bson_schema (.vDict [("bsonType", .vList [.vStr "date", .vStr "null"])]) =
      some (.vDict [("type", .vList [.vStr "string", .vStr "null"]),
                    ("format", .vStr "date-time")])) ∧
    (∀ t : String, ∃ r, convert_bson_schema (.vDict [("bsonType", .vStr t)]) =
      some (.vDict r) ∧ dget r "type" = some (.vStr (typeMapGet t))) ∧
    (∀ ts : List String, ∃ r,
      convert_bson_schema (.vDict [("bsonType", .vList (ts.map .vStr))]) =
        some (.vDict r) ∧
      dget r "type" =
        some (scalarOrList (ts.map (fun t => Value.vStr (typeMapGet t))))) := by
  refine ⟨rfl, rfl, rfl, rfl, rfl, ?_, ?_⟩
  · intro t
    have hm : mapTypeEntries (btTypes (.vStr t)) = some [.vStr (typeMapGet t)] := by
      show mapTypeEntries ([t].map .vStr) = _
      rw [mapTypeEntries_map_str]
      rfl
    have hsome := typeBlock_isSome (.vStr t) (by rw [hm]; rfl)
    obtain ⟨acc, hacc⟩ := Option.isSome_iff_exists.mp hsome
    obtain ⟨converted, hm', htype, _, _, _⟩ := typeBlock_spec _ _ hacc
    rw [hm] at hm'
    cases hm'
    refine ⟨acc, convert_bt_only _ _ (by intro hh; cases hh) hacc, ?_⟩
    exact htype
  · intro ts
    have hm : mapTypeEntries (btTypes (.vList (ts.map .vStr))) =
        some (ts.map (fun t => Value.vStr (typeMapGet t))) := by
      show mapTypeEntries (ts.map .vStr) = _
      exact mapTypeEntries_map_str ts
    have hsome := typeBlock_isSome (.vList (ts.map .vStr)) (by rw [hm]; rfl)
    obtain ⟨acc, hacc⟩ := Option.isSome_iff_exists.mp hsome
    obtain ⟨converted, hm', htype, _, _, _⟩ := typeBlock_spec _ _ hacc
    rw [hm] at hm'
    cases hm'
    refine ⟨acc, convert_bt_only _ _ (by intro hh; cases hh) hacc, ?_⟩
    exact htype

/-- C2: an explicit `pattern` (resp. `format`) key on a node survives
translation with its own value; the default 24-hex pattern and the
`date-time` format are present in the output exactly when the node
declares an objectId (resp. date) type and carries no such key itself. -/
theorem c2_no_override :
    (∀ (d : List (String × Value)) (p : String) (r : List (String × Value)),
      NodupKeys d → dget d "pattern" = some (.vStr p) →
      convert_bson_schema (.vDict d) = some (.vDict r) →
      dget r "pattern" = some (.vStr p)) ∧
    (∀ (d : List (String × Value)) (f : String) (r : List (String × Value)),
      NodupKeys d → dget d "format" = some (.vStr f) →
      convert_bson_schema (.vDict d) = some (.vDict r) →
      dget r "format" = some (.vStr f)) ∧
    (∀ (d : List (String × Value)) (bt : Value) (r : List (String × Value)),
      dget d "bsonType" = some bt →
      (btTypes bt).any (isStrLit "objectId") = true →
      dget d "pattern" = none →
      convert_bson_schema (.vDict d) = some (.vDict r) →
      dget r "pattern" = some (.vStr "^[a-fA-F0-9]{24}$")) ∧
    (∀ (d : List (String × Value)) (bt : Value) (r : List (String × Value)),
      dget d "bsonType" = some bt →
      (btTypes bt).any (isStrLit "date") = true →
      dget d "format" = none →
      convert_bson_schema (.vDict d) = some (.vDict r) →
      dget r "format" = some (.vStr "date-time")) := by
  refine ⟨?_, ?_, ?_, ?_⟩
  · intro d p r hnd hpat hc
    obtain ⟨acc, hce, _⟩ := convert_vDict_inv d _ hc
    have := convertEntries_frame "pattern" (by decide) (by decide) (by decide) d acc r hce
    rw [dgetLast_eq_dget d _ hnd, hpat] at this
    exact this
  · intro d f r hnd hfmt hc
    obtain ⟨acc, hce, _⟩ := convert_vDict_inv d _ hc
    have := convertEntries_frame "format" (by decide) (by decide) (by decide) d acc r hce
    rw [dgetLast_eq_dget d _ hnd, hfmt] at this
    exact this
  · intro d bt r hbt hany hnone hc
    obtain ⟨acc, hce, hcase⟩ := convert_vDict_inv d _ hc
    have hlast : dgetLast d "pattern" = none :=
      (dgetLast_eq_none_iff d _).mpr ((dget_eq_none_iff d _).mp hnone)
    have hframe := convertEntries_frame "pattern" (by decide) (by decide) (by decide)
      d acc r hce
    rw [hlast] at hframe
    rcases hcase with ⟨h1, _⟩ | ⟨h1, _⟩ | ⟨bt', hbt', htb⟩
    · rw [hbt] at h1; exact Option.noConfusion h1
    · rw [hbt] at h1
      cases h1
      simp [btTypes, isStrLit] at hany
    · rw [hbt] at hbt'
      cases hbt'
      obtain ⟨converted, _, _, hpat, _, _⟩ := typeBlock_spec _ _ htb
      rw [hframe, hpat, if_pos hany]
  · intro d bt r hbt hany hnone hc
    obtain ⟨acc, hce, hcase⟩ := convert_vDict_inv d _ hc
    have hlast : dgetLast d "format" = none :=
      (dgetLast_eq_none_iff d _).mpr ((dget_eq_none_iff d _).mp hnone)
    have hframe := convertEntries_frame "format" (by decide) (by decide) (by decide)
      d acc r hce
    rw [hlast] at hframe
    rcases hcase with ⟨h1, _⟩ | ⟨h1, _⟩ | ⟨bt', hbt', htb⟩
    · rw [hbt] at h1; exact Option.noConfusion h1
    · rw [hbt] at h1
      cases h1
      simp [btTypes, isStrLit] at hany
    · rw [hbt] at hbt'
      cases hbt'
      obtain ⟨converted, _, _, _, hfmt, _⟩ := typeBlock_spec _ _ htb
      rw [hframe, hfmt, if_pos hany]

/-- Witness for C2: a node with its own `pattern` keeps it, and an
objectId node without one receives the default. -/
theorem c2_no_override_witness :
    dget [("type", .vStr "string"), ("pattern", .vStr "custom")] "pattern" =
      some (.vStr "custom") ∧
    dget [("type", .vStr "string"), ("pattern", .vStr "^[a-fA-F0-9]{24}$")] "pattern" =
      some (.vStr "^[a-fA-F0-9]{24}$") :=
  ⟨c2_no_override.1 [("bsonType", .vStr "objectId"), ("pattern", .vStr "custom")]
      "custom" _ (by decide) rfl rfl,
   c2_no_override.2.2.1 [("bsonType", .vStr "objectId")] (.vStr "objectId") _
      rfl rfl rfl rfl⟩

/-- C6: every key other than the internal type field, `properties` and
`items` whose value is a scalar or a list of scalars (`required`, `enum`,
`additionalProperties`, …) survives translation unchanged; the enum
example keeps its value verbatim; and under `properties` every field name
is preserved exactly with only its value translated. -/
theorem c6_sibling_keys_preserved :
    (∀ (d : List (String × Value)) (k : String) (v : Value)
        (r : List (String × Value)),
      NodupKeys d → k ≠ "bsonType" → k ≠ "properties" → k ≠ "items" →
      isScalarOrScalarList v = true → dget d k = some v →
      convert_bson_schema (.vDict d) = some (.vDict r) →
      dget r k = some v) ∧
    (convert_bson_schema (.vDict [("bsonType", .vStr "string"),
        ("enum", .vList [.vStr "a", .vStr "b"])]) =
      some (.vDict [("type", .vStr "string"),
        ("enum", .vList [.vStr "a", .vStr "b"])])) ∧
    (∀ (d props : List (String × Value)) (r : List (String × Value)),
      NodupKeys d → dget d "properties" = some (.vDict props) →
      convert_bson_schema (.vDict d) = some (.vDict r) →
      ∃ props', dget r "properties" = some (.vDict props') ∧
        props'.map Prod.fst = props.map Prod.fst ∧
        List.Forall₂ (fun a b : String × Value =>
          a.1 = b.1 ∧ convert_bson_schema a.2 = some b.2) props props') := by
  refine ⟨?_, rfl, ?_⟩
  · intro d k v r hnd hk1 hk2 hk3 hscal hget hc
    obtain ⟨acc, hce, _⟩ := convert_vDict_inv d _ hc
    have hframe := convertEntries_frame k hk1 hk2 hk3 d acc r hce
    rw [dgetLast_eq_dget d _ hnd, hget] at hframe
    rw [hframe]
    exact convert_scalarOrScalarList v hscal
  · intro d props r hnd hprops hc
    obtain ⟨acc, hce, _⟩ := convert_vDict_inv d _ hc
    have hframe := (convertEntries_props_frame d acc r hce).2 props
      (by rw [dgetLast_eq_dget d _ hnd]; exact hprops)
    obtain ⟨props', hcp, hget⟩ := hframe
    exact ⟨props', hget, convertProps_keys props props' hcp,
      convertProps_forall₂ props props' hcp⟩

/-- Witness for C6: a `required` list and an `enum` sibling both survive,
and the single-field properties mapping keeps its field name. -/
theorem c6_sibling_keys_preserved_witness :
    dget [("type", .vStr "string"), ("required", .vList [.vStr "a"])] "required" =
      some (.vList [.vStr "a"]) ∧
    (∃ props', dget [("properties", .vDict [("note", .vDict [("type", .vStr "string")])])]
        "properties" = some (.vDict props') ∧
      props'.map Prod.fst = [("note", Value.vDict [("bsonType", .vStr "string")])].map Prod.fst ∧
      List.Forall₂ (fun a b : String × Value =>
          a.1 = b.1 ∧ convert_bson_schema a.2 = some b.2)
        [("note", Value.vDict [("bsonType", .vStr "string")])] props') :=
  ⟨c6_sibling_keys_preserved.1
      [("bsonType", .vStr "string"), ("required", .vList [.vStr "a"])]
      "required" (.vList [.vStr "a"]) _ (by decide) (by decide) (by decide)
      (by decide) rfl rfl rfl,
   c6_sibling_keys_preserved.2.2
      [("properties", .vDict [("note", .vDict [("bsonType", .vStr "string")])])]
      [("note", .vDict [("bsonType", .vStr "string")])] _ (by decide) rfl rfl⟩

/-- C7: a non-nullable numeric descriptor translates to the four-element
list `["number","number","number","number"]` (duplicates are not
collapsed), and the nullable variant appends `"null"`. -/
theorem c7_numeric_duplicates_kept :
    convert_bson_schema (number_type false) =
      some (.vDict [("type", .vList [.vStr "number", .vStr "number",
        .vStr "number", .vStr "number"])]) ∧
    convert_bson_schema (number_type true) =
      some (.vDict [("type", .vList [.vStr "number", .vStr "number",
        .vStr "number", .vStr "number", .vStr "null"])]) :=
  ⟨rfl, rfl⟩

/-- C4: each constructor called with `nullable = true` yields a type list
containing `"null"` exactly once, in last position, preceded by the
non-null types in first-occurrence order without duplicates.  The
constructors are pure, so repeated invocation returns the same value. -/
theorem c4_nullable_invariant :
    (number_type true = .vDict [("bsonType",
        .vList (["int", "long", "double", "decimal", "null"].map .vStr))] ∧
      (["int", "long", "double", "decimal", "null"] : List String).count "null" = 1 ∧
      (["int", "long", "double", "decimal", "null"] : List String).getLast? = some "null" ∧
      (["int", "long", "double", "decimal", "null"] : List String).Nodup ∧
      (["int", "long", "double", "decimal", "null"] : List String).dropLast =
        NUMERIC_TYPES) ∧
    (string_type true = .vDict [("bsonType", .vList (["string", "null"].map .vStr))] ∧
      (["string", "null"] : List String).count "null" = 1 ∧
      (["string", "null"] : List String).getLast? = some "null" ∧
      (["string", "null"] : List String).Nodup) ∧
    (bool_type true = .vDict [("bsonType", .vList (["bool", "null"].map .vStr))] ∧
      (["bool", "null"] : List String).count "null" = 1 ∧
      (["bool", "null"] : List String).getLast? = some "null" ∧
      (["bool", "null"] : List String).Nodup) ∧
    (date_type true = .vDict [("bsonType", .vList (["date", "null"].map .vStr))] ∧
      (["date", "null"] : List String).count "null" = 1 ∧
      (["date", "null"] : List String).getLast? = some "null" ∧
      (["date", "null"] : List String).Nodup) ∧
    (object_id true = .vDict [("bsonType", .vList (["objectId", "null"].map .vStr))] ∧
      (["objectId", "null"] : List String).count "null" = 1 ∧
      (["objectId", "null"] : List String).getLast? = some "null" ∧
      (["objectId", "null"] : List String).Nodup) := by
  refine ⟨⟨rfl, ?_, rfl, ?_, rfl⟩, ⟨rfl, ?_, rfl, ?_⟩, ⟨rfl, ?_, rfl, ?_⟩,
    ⟨rfl, ?_, rfl, ?_⟩, ⟨rfl, ?_, rfl, ?_⟩⟩ <;> decide

/-- C3: the command builder emits exactly one command per catalog entry,
in catalog order: the `collMod` target is the collection name, the
validator wraps the collection schema under `$jsonSchema`, the level is
`"moderate"` and the action `"error"`.  It is a pure total function. -/
theorem c3_command_builder :
    build_collmod_commands.length = SCHEMAS.length ∧
    build_collmod_commands.map commandTarget =
      SCHEMAS.map (fun p => some (.vStr p.1)) ∧
    (SCHEMAS.map Prod.fst).Nodup ∧
    List.Forall₂ (fun (p : String × Value) (cmd : Value) =>
      ∃ r, cmd = .vDict r ∧
        dget r "collMod" = some (.vStr p.1) ∧
        dget r "validator" = some (.vDict [("$jsonSchema", p.2)]) ∧
        dget r "validationLevel" = some (.vStr "moderate") ∧
        dget r "validationAction" = some (.vStr "error"))
      SCHEMAS build_collmod_commands := by
  refine ⟨by simp [build_collmod_commands], ?_, by decide, ?_⟩
  · show (SCHEMAS.map _).map commandTarget = _
    rw [List.map_map]
    exact List.map_congr_left (fun p _ => rfl)
  · show List.Forall₂ _ SCHEMAS (SCHEMAS.map _)
    generalize SCHEMAS = l
    induction l with
    | nil => exact List.Forall₂.nil
    | cons p rest ih =>
        exact List.Forall₂.cons ⟨_, rfl, rfl, rfl, rfl, rfl⟩ ih

/-- C9: the generator is deterministic — any two runs produce equal
serialized command and schema documents — and a run of the pure pipeline
succeeds. -/
theorem c9_deterministic :
    (∀ out1 out2 : Option (String × String),
      out1 = main_outputs → out2 = main_outputs → out1 = out2) ∧
    main_outputs.isSome = true := by
  constructor
  · intro o1 o2 h1 h2
    rw [h1, h2]
  · rfl

/-- Witness for C9 at the concrete pipeline value. -/
theorem c9_deterministic_witness : main_outputs = main_outputs :=
  c9_deterministic.1 main_outputs main_outputs rfl rfl

/-! ### Totality of the translator on well-formed trees -/

theorem mapTypeEntry_isSome (e : Value) (h : isScalar e = true) :
    (mapTypeEntry e).isSome = true := by
  cases e <;> simp [isScalar] at h ⊢ <;> rfl

theorem mapTypeEntries_isSome (types : List Value)
    (h : types.all isScalar = true) : (mapTypeEntries types).isSome = true := by
  induction types with
  | nil => rfl
  | cons e es ih =>
      rw [List.all_cons, Bool.and_eq_true] at h
      obtain ⟨c, hc⟩ := Option.isSome_iff_exists.mp (mapTypeEntry_isSome e h.1)
      obtain ⟨cs, hcs⟩ := Option.isSome_iff_exists.mp (ih h.2)
      simp [mapTypeEntries, hc, hcs]

theorem typeBlock_total (bt : Value) (h : btOk (some bt) = true) :
    (typeBlock bt).isSome = true := by
  apply typeBlock_isSome
  apply mapTypeEntries_isSome
  cases bt with
  | vList l => exact h
  | vNull => rfl
  | vBool b => rfl
  | vInt n => rfl
  | vStr s => rfl
  | vDict d => simp [btOk, isScalar] at h

/-- Forward form of the mapping-node unfolding: once the initial `result`
dict is known, the translator on a mapping node is the entry loop. -/
theorem convert_vDict_eq_of (d : List (String × Value)) (acc : List (String × Value))
    (hcase : (dget d "bsonType" = none ∧ acc = []) ∨
      (dget d "bsonType" = some .vNull ∧ acc = []) ∨
      (∃ bt, bt ≠ .vNull ∧ dget d "bsonType" = some bt ∧ typeBlock bt = some acc)) :
    convert_bson_schema (.vDict d) = convertEntries acc d := by
  show (match
      (match dget d "bsonType" with
       | none => some []
       | some .vNull => some []
       | some bt => typeBlock bt) with
    | none => none
    | some acc => convertEntries acc d) = convertEntries acc d
  rcases hcase with ⟨h1, h2⟩ | ⟨h1, h2⟩ | ⟨bt, hnn, h1, h2⟩
  · rw [h1, h2]
  · rw [h1, h2]
  · rw [h1]
    cases bt with
    | vNull => exact absurd rfl hnn
    | vBool b => rw [show (match some (Value.vBool b) with
        | none => some []
        | some Value.vNull => some []
        | some bt => typeBlock bt) = typeBlock (Value.vBool b) from rfl, h2]
    | vInt n => rw [show (match some (Value.vInt n) with
        | none => some []
        | some Value.vNull => some []
        | some bt => typeBlock bt) = typeBlock (Value.vInt n) from rfl, h2]
    | vStr s => rw [show (match some (Value.vStr s) with
        | none => some []
        | some Value.vNull => some []
        | some bt => typeBlock bt) = typeBlock (Value.vStr s) from rfl, h2]
    | vList l => rw [show (match some (Value.vList l) with
        | none => some []
        | some Value.vNull => some []
        | some bt => typeBlock bt) = typeBlock (Value.vList l) from rfl, h2]
    | vDict d2 => rw [show (match some (Value.vDict d2) with
        | none => some []
        | some Value.vNull => some []
        | some bt => typeBlock bt) = typeBlock (Value.vDict d2) from rfl, h2]

theorem convertList_total (B : Nat)
    (IH : ∀ w : Value, sizeOf w < B → wfV w = true →
      (convert_bson_schema w).isSome = true) :
    ∀ l : List Value, sizeOf l ≤ B → wfL l = true →
      (convertList l).isSome = true := by
  intro l
  induction l with
  | nil => intro _ _; rfl
  | cons x xs ih =>
      intro hs hwf
      simp only [wfL, Bool.and_eq_true] at hwf
      have hx : sizeOf x < B := by
        have := sizeOf_mem_lt_list x (x :: xs) (List.mem_cons_self x xs)
        omega
      have hxs : sizeOf xs ≤ B := by
        have := sizeOf_rest_lt_cons' x xs
        omega
      obtain ⟨x', hx'⟩ := Option.isSome_iff_exists.mp (IH x hx hwf.1)
      obtain ⟨xs', hxs'⟩ := Option.isSome_iff_exists.mp (ih hxs hwf.2)
      simp [convertList, hx', hxs']

theorem convertProps_total (B : Nat)
    (IH : ∀ w : Value, sizeOf w < B → wfV w = true →
      (convert_bson_schema w).isSome = true) :
    ∀ props : List (String × Value), sizeOf props ≤ B → wfProps props = true →
      (convertProps props).isSome = true := by
  intro props
  induction props with
  | nil => intro _ _; rfl
  | cons e rest ih =>
      intro hs hwf
      obtain ⟨k, v⟩ := e
      simp only [wfProps, Bool.and_eq_true] at hwf
      have hv : sizeOf v < B := by
        have := sizeOf_snd_lt_cons k v rest
        omega
      have hrest : sizeOf rest ≤ B := by
        have := sizeOf_rest_lt_cons (k, v) rest
        omega
      obtain ⟨v', hv'⟩ := Option.isSome_iff_exists.mp (IH v hv hwf.1)
      obtain ⟨rest', hrest'⟩ := Option.isSome_iff_exists.mp (ih hrest hwf.2)
      simp [convertProps, hv', hrest']

theorem wfEntries_cons (key : String) (value : Value)
    (rest : List (String × Value)) :
    wfEntries ((key, value) :: rest) =
      ((if key = "bsonType" then true
        else if key = "properties" then
          match value with
          | .vDict props => wfProps props
          | _ => false
        else wfV value) && wfEntries rest) := by
  cases value <;> simp [wfEntries]

theorem convertEntries_total (B : Nat)
    (IH : ∀ w : Value, sizeOf w < B → wfV w = true →
      (convert_bson_schema w).isSome = true) :
    ∀ (l acc : List (String × Value)), sizeOf l ≤ B → wfEntries l = true →
      (convertEntries acc l).isSome = true := by
  intro l
  induction l with
  | nil => intro acc _ _; rfl
  | cons e rest ih =>
      intro acc hs hwf
      obtain ⟨key, value⟩ := e
      rw [wfEntries_cons, Bool.and_eq_true] at hwf
      have hrest : sizeOf rest ≤ B := by
        have := sizeOf_rest_lt_cons (key, value) rest
        omega
      have hval : sizeOf value < B := by
        have := sizeOf_snd_lt_cons key value rest
        omega
      by_cases hb : key = "bsonType"
      · subst hb
        rw [convertEntries_cons_bson]
        exact ih acc hrest hwf.2
      · by_cases hp : key = "properties"
        · subst hp
          cases value with
          | vDict props =>
              rw [convertEntries_cons_props]
              have hwfp : wfProps props = true := by
                have := hwf.1
                simp only [if_neg (by decide : ¬("properties" = "bsonType")),
                  if_pos rfl] at this
                exact this
              have hpsz : sizeOf props ≤ B := by
                have h1 := sizeOf_entries_lt_vDict props
                omega
              obtain ⟨props', hprops'⟩ := Option.isSome_iff_exists.mp
                (convertProps_total B IH props hpsz hwfp)
              rw [hprops']
              exact ih _ hrest hwf.2
          | vNull => simp [if_neg (by decide : ¬("properties" = "bsonType"))] at hwf
          | vBool b => simp [if_neg (by decide : ¬("properties" = "bsonType"))] at hwf
          | vInt n => simp [if_neg (by decide : ¬("properties" = "bsonType"))] at hwf
          | vStr s => simp [if_neg (by decide : ¬("properties" = "bsonType"))] at hwf
          | vList l2 => simp [if_neg (by decide : ¬("properties" = "bsonType"))] at hwf
        · have hwfv : wfV value = true := by
            have := hwf.1
            rw [if_neg hb, if_neg hp] at this
            exact this
          by_cases hi : key = "items"
          · subst hi
            cases value with
            | vList items =>
                rw [convertEntries_cons_items_list]
                have hisz : sizeOf items ≤ B := by
                  have h1 := sizeOf_elems_lt_vList items
                  omega
                obtain ⟨items', hitems'⟩ := Option.isSome_iff_exists.mp
                  (convertList_total B IH items hisz hwfv)
                rw [hitems']
                exact ih _ hrest hwf.2
            | vNull =>
                simp only [convertEntries]
                simp only [if_false, if_true, ite_true, ite_false,
                  reduceCtorEq, reduceIte]
                obtain ⟨v', hv'⟩ := Option.isSome_iff_exists.mp (IH _ hval hwfv)
                rw [hv']
                exact ih _ hrest hwf.2
            | vBool b =>
                simp only [convertEntries]
                simp only [if_false, if_true, ite_true, ite_false,
                  reduceCtorEq, reduceIte]
                obtain ⟨v', hv'⟩ := Option.isSome_iff_exists.mp (IH _ hval hwfv)
                rw [hv']
                exact ih _ hrest hwf.2
            | vInt n =>
                simp only [convertEntries]
                simp only [if_false, if_true, ite_true, ite_false,
                  reduceCtorEq, reduceIte]
                obtain ⟨v', hv'⟩ := Option.isSome_iff_exists.mp (IH _ hval hwfv)
                rw [hv']
                exact ih _ hrest hwf.2
            | vStr s =>
                simp only [convertEntries]
                simp only [if_false, if_true, ite_true, ite_false,
                  reduceCtorEq, reduceIte]
                obtain ⟨v', hv'⟩ := Option.isSome_iff_exists.mp (IH _ hval hwfv)
                rw [hv']
                exact ih _ hrest hwf.2
            | vDict d2 =>
                simp only [convertEntries]
                simp only [if_false, if_true, ite_true, ite_false,
                  reduceCtorEq, reduceIte]
                obtain ⟨v', hv'⟩ := Option.isSome_iff_exists.mp (IH _ hval hwfv)
                rw [hv']
                exact ih _ hrest hwf.2
          · rw [convertEntries_cons_other acc key value rest hb hp hi]
            obtain ⟨v', hv'⟩ := Option.isSome_iff_exists.mp (IH _ hval hwfv)
            rw [hv']
            exact ih _ hrest hwf.2

/-- On well-formed trees the translator always returns a value. -/
theorem convert_total_of_wf :
    ∀ v : Value, wfV v = true → (convert_bson_schema v).isSome = true := by
  have main : ∀ n (v : Value), sizeOf v ≤ n → wfV v = true →
      (convert_bson_schema v).isSome = true := by
    intro n
    induction n using Nat.strong_induction_on with
    | _ n IHn =>
      intro v hv hwf
      have IH : ∀ w : Value, sizeOf w < sizeOf v → wfV w = true →
          (convert_bson_schema w).isSome = true :=
        fun w hw hwfw => IHn (sizeOf w) (lt_of_lt_of_le hw hv) w le_rfl hwfw
      cases v with
      | vNull => rfl
      | vBool b => rfl
      | vInt i => rfl
      | vStr s => rfl
      | vList l =>
          simp only [wfV] at hwf
          obtain ⟨l', hl'⟩ := Option.isSome_iff_exists.mp
            (convertList_total (sizeOf (Value.vList l)) IH l
              (le_of_lt (sizeOf_elems_lt_vList l)) hwf)
          show ((match convertList l with
            | none => none
            | some l2 => some (Value.vList l2)) : Option Value).isSome = true
          rw [hl']
          rfl
      | vDict d =>
          simp only [wfV, Bool.and_eq_true] at hwf
          have hents := convertEntries_total (sizeOf (Value.vDict d)) IH d
          have hdsz : sizeOf d ≤ sizeOf (Value.vDict d) :=
            le_of_lt (sizeOf_entries_lt_vDict d)
          cases hbt : dget d "bsonType" with
          | none =>
              rw [convert_vDict_eq_of d [] (Or.inl ⟨hbt, rfl⟩)]
              exact hents [] hdsz hwf.2
          | some bt =>
              by_cases hnn : bt = .vNull
              · subst hnn
                rw [convert_vDict_eq_of d [] (Or.inr (Or.inl ⟨hbt, rfl⟩))]
                exact hents [] hdsz hwf.2
              · have hok : btOk (some bt) = true := by rw [hbt] at hwf; exact hwf.1
                obtain ⟨acc, hacc⟩ := Option.isSome_iff_exists.mp
                  (typeBlock_total bt hok)
                rw [convert_vDict_eq_of d acc
                  (Or.inr (Or.inr ⟨bt, hnn, hbt, hacc⟩))]
                exact hents acc hdsz hwf.2
  exact fun v => main (sizeOf v) v le_rfl

/-- Counterexample to C5 as stated: on the finite tree
`{"properties": 0}` the translator raises (`value.items()` on a non-dict
raises `AttributeError` in Python, modelled by `none`), so it is not total
on every finite tree of mappings, sequences and scalars. -/
theorem c5_totality_counterexample :
    convert_bson_schema (.vDict [("properties", .vInt 0)]) = none := rfl

/-- C5 (amended): the translator is total on well-formed trees — those in
which every `properties` value is a mapping and every declared type entry
is a scalar — and any type name not present in `TYPE_MAP` passes through
to the output unmapped rather than being rejected. -/
theorem c5_total_and_passthrough :
    (∀ v : Value, wfV v = true → (convert_bson_schema v).isSome = true) ∧
    (∀ t : String, TYPE_MAP.lookup t = none →
      convert_bson_schema (.vDict [("bsonType", .vStr t)]) =
        some (.vDict [("type", .vStr t)])) := by
  refine ⟨convert_total_of_wf, ?_⟩
  intro t hl
  have hobj : t ≠ "objectId" := by
    intro h
    subst h
    rw [show TYPE_MAP.lookup "objectId" = some "string" from rfl] at hl
    exact Option.noConfusion hl
  have hdate : t ≠ "date" := by
    intro h
    subst h
    rw [show TYPE_MAP.lookup "date" = some "string" from rfl] at hl
    exact Option.noConfusion hl
  have hmap : typeMapGet t = t := by
    simp [typeMapGet, hl]
  have htb : typeBlock (.vStr t) = some [("type", .vStr t)] := by
    show (do
      let converted ← mapTypeEntries (btTypes (.vStr t))
      let needsPat := (btTypes (.vStr t)).any (isStrLit "objectId")
      let needsFmt := (btTypes (.vStr t)).any (isStrLit "date")
      let r : List (String × Value) := [("type", scalarOrList converted)]
      let r := if needsPat then dsetdefault r "pattern" (.vStr "^[a-fA-F0-9]{24}$") else r
      let r := if needsFmt then dsetdefault r "format" (.vStr "date-time") else r
      pure r) = some [("type", .vStr t)]
    have h1 : mapTypeEntries (btTypes (.vStr t)) = some [.vStr t] := by
      show mapTypeEntries [.vStr t] = some [.vStr t]
      simp [mapTypeEntries, mapTypeEntry, hmap]
    rw [h1]
    have h2 : (btTypes (.vStr t)).any (isStrLit "objectId") = false := by
      show (isStrLit "objectId" (.vStr t) || false) = false
      simp [isStrLit, hobj]
    have h3 : (btTypes (.vStr t)).any (isStrLit "date") = false := by
      show (isStrLit "date" (.vStr t) || false) = false
      simp [isStrLit, hdate]
    simp only [Option.bind_eq_bind, Option.some_bind, h2, h3, Bool.false_eq_true,
      if_false, Option.pure_def]
    rfl
  exact convert_bt_only _ _ (by intro hh; cases hh) htb

/-- Witness for C5 (amended): the catalog's `users` schema is well-formed
and translates, and the unknown token `"frobnicate"` survives unmapped. -/
theorem c5_total_and_passthrough_witness :
    (convert_bson_schema usersSchema).isSome = true ∧
    convert_bson_schema (.vDict [("bsonType", .vStr "frobnicate")]) =
      some (.vDict [("type", .vStr "frobnicate")]) :=
  ⟨c5_total_and_passthrough.1 usersSchema rfl,
   c5_total_and_passthrough.2 "frobnicate" rfl⟩

/-! ### The output never carries a `bsonType` key (outside field names) -/

theorem noBsonEntries_cons (k : String) (v : Value)
    (rest : List (String × Value)) :
    noBsonEntries ((k, v) :: rest) =
      ((if k = "properties" then
          match v with
          | .vDict props => noBsonProps props
          | w => noBson w
        else !(k == "bsonType") && noBson v) && noBsonEntries rest) := by
  cases v <;> simp [noBsonEntries]

theorem noBsonEntries_dset (acc : List (String × Value)) (k : String) (v : Value)
    (hacc : noBsonEntries acc = true)
    (hkv : (if k = "properties" then
        match v with
        | .vDict props => noBsonProps props
        | w => noBson w
      else !(k == "bsonType") && noBson v) = true) :
    noBsonEntries (dset acc k v) = true := by
  induction acc with
  | nil =>
      show noBsonEntries [(k, v)] = true
      rw [noBsonEntries_cons, hkv]
      rfl
  | cons e rest ih =>
      obtain ⟨k', v'⟩ := e
      rw [noBsonEntries_cons, Bool.and_eq_true] at hacc
      by_cases hk : k' = k
      · show noBsonEntries (if k' = k then (k, v) :: rest else _) = true
        rw [if_pos hk, noBsonEntries_cons, hkv, Bool.true_and]
        exact hacc.2
      · show noBsonEntries (if k' = k then _ else (k', v') :: dset rest k v) = true
        rw [if_neg hk, noBsonEntries_cons, hacc.1, Bool.true_and]
        exact ih hacc.2

theorem noBsonEntries_append (d1 d2 : List (String × Value))
    (h1 : noBsonEntries d1 = true) (h2 : noBsonEntries d2 = true) :
    noBsonEntries (d1 ++ d2) = true := by
  induction d1 with
  | nil => exact h2
  | cons e rest ih =>
      obtain ⟨k, v⟩ := e
      rw [noBsonEntries_cons, Bool.and_eq_true] at h1
      rw [List.cons_append, noBsonEntries_cons, h1.1, Bool.true_and]
      exact ih h1.2

theorem noBson_scalar (v : Value) (h : isScalar v = true) : noBson v = true := by
  cases v <;> simp [isScalar] at h ⊢ <;> rfl

theorem noBsonList_scalars (l : List Value) (h : ∀ c ∈ l, isScalar c = true) :
    noBsonList l = true := by
  induction l with
  | nil => rfl
  | cons x xs ih =>
      show (noBson x && noBsonList xs) = true
      rw [noBson_scalar x (h x (List.mem_cons_self x xs)),
        ih (fun c hc => h c (List.mem_cons_of_mem x hc))]
      rfl

theorem noBson_scalarOrList (converted : List Value)
    (h : ∀ c ∈ converted, isScalar c = true) :
    noBson (scalarOrList converted) = true := by
  match converted with
  | [] => rfl
  | [c] => exact noBson_scalar c (h c (List.mem_cons_self c []))
  | c :: c' :: cs =>
      show noBsonList (c :: c' :: cs) = true
      exact noBsonList_scalars _ h

theorem noBsonEntries_dsetdefault (d : List (String × Value)) (k : String)
    (v : Value) (hd : noBsonEntries d = true)
    (hkv : (if k = "properties" then
        match v with
        | .vDict props => noBsonProps props
        | w => noBson w
      else !(k == "bsonType") && noBson v) = true) :
    noBsonEntries (dsetdefault d k v) = true := by
  unfold dsetdefault
  split
  · exact hd
  · refine noBsonEntries_append d [(k, v)] hd ?_
    rw [noBsonEntries_cons, hkv]
    rfl

theorem typeBlock_noBson (bt : Value) (acc : List (String × Value))
    (h : typeBlock bt = some acc) : noBsonEntries acc = true := by
  simp only [typeBlock, Option.bind_eq_bind, Option.bind] at h
  cases hm : mapTypeEntries (btTypes bt) with
  | none => rw [hm] at h; exact Option.noConfusion h
  | some converted =>
      rw [hm] at h
      simp only [Option.pure_def, Option.some.injEq] at h
      subst h
      have hsc := mapTypeEntries_scalar _ _ hm
      have h0 : noBsonEntries [("type", scalarOrList converted)] = true := by
        rw [noBsonEntries_cons]
        rw [if_neg (by decide : ¬("type" = "properties")),
          noBson_scalarOrList converted hsc]
        rfl
      rcases Bool.eq_false_or_eq_true ((btTypes bt).any (isStrLit "objectId")) with
        hpat | hpat <;>
        rcases Bool.eq_false_or_eq_true ((btTypes bt).any (isStrLit "date")) with
          hfmt | hfmt
      · simp only [hpat, hfmt, Bool.false_eq_true, if_false]
        exact h0
      · simp only [hpat, hfmt, Bool.false_eq_true, eq_self_iff_true, if_false, if_true]
        exact noBsonEntries_dsetdefault _ "format" (.vStr "date-time") h0 (by decide)
      · simp only [hpat, hfmt, Bool.false_eq_true, eq_self_iff_true, if_false, if_true]
        exact noBsonEntries_dsetdefault _ "pattern" (.vStr "^[a-fA-F0-9]{24}$") h0
          (by decide)
      · simp only [hpat, hfmt, eq_self_iff_true, if_true]
        exact noBsonEntries_dsetdefault _ "format" (.vStr "date-time")
          (noBsonEntries_dsetdefault _ "pattern" (.vStr "^[a-fA-F0-9]{24}$") h0
            (by decide)) (by decide)

theorem convertList_noBson (B : Nat)
    (IH : ∀ w : Value, sizeOf w < B → ∀ r, convert_bson_schema w = some r →
      noBson r = true) :
    ∀ (l l' : List Value), sizeOf l ≤ B → convertList l = some l' →
      noBsonList l' = true := by
  intro l
  induction l with
  | nil =>
      intro l' _ h
      simp only [convertList, Option.some.injEq] at h
      cases h
      rfl
  | cons x xs ih =>
      intro l' hs h
      have hx : sizeOf x < B := by
        have := sizeOf_mem_lt_list x (x :: xs) (List.mem_cons_self x xs)
        omega
      have hxs : sizeOf xs ≤ B := by
        have := sizeOf_rest_lt_cons' x xs
        omega
      simp only [convertList] at h
      cases hcx : convert_bson_schema x with
      | none => rw [hcx] at h; exact Option.noConfusion h
      | some x' =>
          rw [hcx] at h
          cases hcxs : convertList xs with
          | none => rw [hcxs] at h; exact Option.noConfusion h
          | some xs' =>
              rw [hcxs] at h
              simp only [Option.some.injEq] at h
              cases h
              show (noBson x' && noBsonList xs') = true
              rw [IH x hx x' hcx, ih xs' hxs hcxs]
              rfl

theorem convertProps_noBson (B : Nat)
    (IH : ∀ w : Value, sizeOf w < B → ∀ r, convert_bson_schema w = some r →
      noBson r = true) :
    ∀ (props props' : List (String × Value)), sizeOf props ≤ B →
      convertProps props = some props' → noBsonProps props' = true := by
  intro props
  induction props with
  | nil =>
      intro props' _ h
      simp only [convertProps, Option.some.injEq] at h
      cases h
      rfl
  | cons e rest ih =>
      intro props' hs h
      obtain ⟨k, v⟩ := e
      have hv : sizeOf v < B := by
        have := sizeOf_snd_lt_cons k v rest
        omega
      have hrest : sizeOf rest ≤ B := by
        have := sizeOf_rest_lt_cons (k, v) rest
        omega
      simp only [convertProps] at h
      cases hcv : convert_bson_schema v with
      | none => rw [hcv] at h; exact Option.noConfusion h
      | some v' =>
          rw [hcv] at h
          cases hcr : convertProps rest with
          | none => rw [hcr] at h; exact Option.noConfusion h
          | some rest' =>
              rw [hcr] at h
              simp only [Option.some.injEq] at h
              cases h
              show (noBson v' && noBsonProps rest') = true
              rw [IH v hv v' hcv, ih rest' hrest hcr]
              rfl

theorem convertEntries_noBson (B : Nat)
    (IH : ∀ w : Value, sizeOf w < B → ∀ r, convert_bson_schema w = some r →
      noBson r = true) :
    ∀ (l acc : List (String × Value)) (r : Value), sizeOf l ≤ B →
      noBsonEntries acc = true → convertEntries acc l = some r →
      noBson r = true := by
  intro l
  induction l with
  | nil =>
      intro acc r _ hacc h
      simp only [convertEntries, Option.some.injEq] at h
      cases h
      exact hacc
  | cons e rest ih =>
      intro acc r hs hacc h
      obtain ⟨key, value⟩ := e
      have hrest : sizeOf rest ≤ B := by
        have := sizeOf_rest_lt_cons (key, value) rest
        omega
      have hval : sizeOf value < B := by
        have := sizeOf_snd_lt_cons key value rest
        omega
      by_cases hb : key = "bsonType"
      · subst hb
        rw [convertEntries_cons_bson] at h
        exact ih acc r hrest hacc h
      · by_cases hp : key = "properties"
        · subst hp
          cases value with
          | vDict props =>
              rw [convertEntries_cons_props] at h
              cases hcp : convertProps props with
              | none => rw [hcp] at h; exact Option.noConfusion h
              | some props' =>
                  rw [hcp] at h
                  have hpsz : sizeOf props ≤ B := by
                    have h1 := sizeOf_entries_lt_vDict props
                    omega
                  have hnb := convertProps_noBson B IH props props' hpsz hcp
                  refine ih _ r hrest ?_ h
                  exact noBsonEntries_dset acc "properties" (.vDict props') hacc
                    (by rw [if_pos rfl]; exact hnb)
          | vNull => simp [convertEntries] at h
          | vBool b => simp [convertEntries] at h
          | vInt n => simp [convertEntries] at h
          | vStr s => simp [convertEntries] at h
          | vList l2 => simp [convertEntries] at h
        · by_cases hi : key = "items"
          · subst hi
            cases value with
            | vList items =>
                rw [convertEntries_cons_items_list] at h
                cases hcl : convertList items with
                | none => rw [hcl] at h; exact Option.noConfusion h
                | some items' =>
                    rw [hcl] at h
                    have hisz : sizeOf items ≤ B := by
                      have h1 := sizeOf_elems_lt_vList items
                      omega
                    have hnb := convertList_noBson B IH items items' hisz hcl
                    refine ih _ r hrest ?_ h
                    refine noBsonEntries_dset acc "items" (.vList items') hacc ?_
                    rw [if_neg (by decide : ¬("items" = "properties"))]
                    show (true && noBsonList items') = true
                    rw [hnb]
                    rfl
            | vNull =>
                simp only [convertEntries] at h
                simp only [if_false, if_true, ite_true, ite_false,
                  reduceCtorEq, reduceIte] at h
                cases hc : convert_bson_schema .vNull with
                | none => rw [hc] at h; exact Option.noConfusion h
                | some v' =>
                    rw [hc] at h
                    refine ih _ r hrest ?_ h
                    refine noBsonEntries_dset acc "items" v' hacc ?_
                    rw [if_neg (by decide : ¬("items" = "properties"))]
                    show (true && noBson v') = true
                    rw [IH _ hval v' hc]
                    rfl
            | vBool b =>
                simp only [convertEntries] at h
                simp only [if_false, if_true, ite_true, ite_false,
                  reduceCtorEq, reduceIte] at h
                cases hc : convert_bson_schema (.vBool b) with
                | none => rw [hc] at h; exact Option.noConfusion h
                | some v' =>
                    rw [hc] at h
                    refine ih _ r hrest ?_ h
                    refine noBsonEntries_dset acc "items" v' hacc ?_
                    rw [if_neg (by decide : ¬("items" = "properties"))]
                    show (true && noBson v') = true
                    rw [IH _ hval v' hc]
                    rfl
            | vInt n =>
                simp only [convertEntries] at h
                simp only [if_false, if_true, ite_true, ite_false,
                  reduceCtorEq, reduceIte] at h
                cases hc : convert_bson_schema (.vInt n) with
                | none => rw [hc] at h; exact Option.noConfusion h
                | some v' =>
                    rw [hc] at h
                    refine ih _ r hrest ?_ h
                    refine noBsonEntries_dset acc "items" v' hacc ?_
                    rw [if_neg (by decide : ¬("items" = "properties"))]
                    show (true && noBson v') = true
                    rw [IH _ hval v' hc]
                    rfl
            | vStr s =>
                simp only [convertEntries] at h
                simp only [if_false, if_true, ite_true, ite_false,
                  reduceCtorEq, reduceIte] at h
                cases hc : convert_bson_schema (.vStr s) with
                | none => rw [hc] at h; exact Option.noConfusion h
                | some v' =>
                    rw [hc] at h
                    refine ih _ r hrest ?_ h
                    refine noBsonEntries_dset acc "items" v' hacc ?_
                    rw [if_neg (by decide : ¬("items" = "properties"))]
                    show (true && noBson v') = true
                    rw [IH _ hval v' hc]
                    rfl
            | vDict d2 =>
                simp only [convertEntries] at h
                simp only [if_false, if_true, ite_true, ite_false,
                  reduceCtorEq, reduceIte] at h
                cases hc : convert_bson_schema (.vDict d2) with
                | none => rw [hc] at h; exact Option.noConfusion h
                | some v' =>
                    rw [hc] at h
                    refine ih _ r hrest ?_ h
                    refine noBsonEntries_dset acc "items" v' hacc ?_
                    rw [if_neg (by decide : ¬("items" = "properties"))]
                    show (true && noBson v') = true
                    rw [IH _ hval v' hc]
                    rfl
          · rw [convertEntries_cons_other acc key value rest hb hp hi] at h
            cases hc : convert_bson_schema value with
            | none => rw [hc] at h; exact Option.noConfusion h
            | some v' =>
                rw [hc] at h
                refine ih _ r hrest ?_ h
                refine noBsonEntries_dset acc key v' hacc ?_
                rw [if_neg hp]
                have hbne : (key == "bsonType") = false :=
                  beq_eq_false_iff_ne.mpr hb
                rw [hbne]
                show (true && noBson v') = true
                rw [IH _ hval v' hc]
                rfl

/-- The translator's output never carries a `bsonType` key on any mapping
node it produces (keys of a `properties` mapping are field names and are
exempt). -/
theorem convert_noBson :
    ∀ (v r : Value), convert_bson_schema v = some r → noBson r = true := by
  have main : ∀ n (v : Value), sizeOf v ≤ n → ∀ r,
      convert_bson_schema v = some r → noBson r = true := by
    intro n
    induction n using Nat.strong_induction_on with
    | _ n IHn =>
      intro v hv r hc
      have IH : ∀ w : Value, sizeOf w < sizeOf v → ∀ r',
          convert_bson_schema w = some r' → noBson r' = true :=
        fun w hw r' hc' => IHn (sizeOf w) (lt_of_lt_of_le hw hv) w le_rfl r' hc'
      cases v with
      | vNull => cases hc; rfl
      | vBool b => cases hc; rfl
      | vInt i => cases hc; rfl
      | vStr s => cases hc; rfl
      | vList l =>
          replace hc : (match convertList l with
            | none => none
            | some l2 => some (Value.vList l2)) = some r := hc
          cases hcl : convertList l with
          | none => rw [hcl] at hc; exact Option.noConfusion hc
          | some l' =>
              rw [hcl] at hc
              cases hc
              exact convertList_noBson (sizeOf (Value.vList l)) IH l l'
                (le_of_lt (sizeOf_elems_lt_vList l)) hcl
      | vDict d =>
          obtain ⟨acc, hce, hcase⟩ := convert_vDict_inv d r hc
          have hacc : noBsonEntries acc = true := by
            rcases hcase with ⟨_, h2⟩ | ⟨_, h2⟩ | ⟨bt, _, htb⟩
            · subst h2; rfl
            · subst h2; rfl
            · exact typeBlock_noBson bt acc htb
          exact convertEntries_noBson (sizeOf (Value.vDict d)) IH d acc r
            (le_of_lt (sizeOf_entries_lt_vDict d)) hacc hce
  exact fun v r hc => main (sizeOf v) v le_rfl r hc

/-- Counterexample to C8 as stated: a field literally named `bsonType`
under a `properties` mapping is a field name and survives translation, so
the output does contain a key named `bsonType` at depth. -/
theorem c8_counterexample :
    convert_bson_schema (.vDict [("properties", .vDict [("bsonType", .vStr "x")])]) =
      some (.vDict [("properties", .vDict [("bsonType", .vStr "x")])]) ∧
    hasKeyDeep "bsonType" (.vDict [("properties", .vDict [("bsonType", .vStr "x")])]) =
      true :=
  ⟨rfl, rfl⟩

/-- C8 (amended): on every mapping node the translator produces, the
internal `bsonType` key has been removed — at every depth, including
nodes under `properties`, `items`, list elements and other keys — with
the sole exception that keys of a `properties` mapping are field names
and are preserved verbatim. -/
theorem c8_no_internal_type_key (v r : Value)
    (h : convert_bson_schema v = some r) : noBson r = true :=
  convert_noBson v r h

/-- Witness for C8 (amended): translating `{bsonType: "string"}` yields a
node satisfying the invariant. -/
theorem c8_no_internal_type_key_witness :
    noBson (.vDict [("type", .vStr "string")]) = true :=
  c8_no_internal_type_key (.vDict [("bsonType", .vStr "string")])
    (.vDict [("type", .vStr "string")]) rfl

/-! ### Heap lemmas: allocation postconditions -/

theorem heap_get_append_lt (h : Heap) (more : List HNode) (i : Nat)
    (hi : i < h.size) : (Heap.mk (h.cells ++ more)).get i = h.get i := by
  simp only [Heap.get, Heap.size] at *
  exact List.get?_append hi

theorem heap_get_concat (h : Heap) (n : HNode) :
    (Heap.mk (h.cells ++ [n])).get h.size = some n := by
  simp only [Heap.get, Heap.size]
  exact List.get?_concat_length h.cells n

theorem heap_get_none (h : Heap) (i : Nat) (hi : h.size ≤ i) : h.get i = none :=
  List.get?_eq_none.mpr hi

theorem heap_size_concat (h : Heap) (n : HNode) :
    (Heap.mk (h.cells ++ [n])).size = h.size + 1 := by
  simp [Heap.size]

theorem heap_write_get_ne (h : Heap) (p i : Nat) (n : HNode) (hne : p ≠ i) :
    (h.write p n).get i = h.get i := by
  simp only [Heap.write, Heap.get]
  exact List.get?_set_ne n h.cells hne

theorem allocPost_nil (h : Heap) : AllocPost h h [] :=
  ⟨le_rfl, by simp, fun _ _ => rfl,
   fun i n hge hs => absurd hs (by rw [heap_get_none h i hge]; exact fun hh => Option.noConfusion hh)⟩

theorem allocPost_trans (h1 h2 h3 : Heap) (r1 r2 : List Nat)
    (p1 : AllocPost h1 h2 r1) (p2 : AllocPost h2 h3 r2) :
    AllocPost h1 h3 (r1 ++ r2) := by
  obtain ⟨s12, rts1, pre1, cl1⟩ := p1
  obtain ⟨s23, rts2, pre2, cl2⟩ := p2
  refine ⟨le_trans s12 s23, ?_, ?_, ?_⟩
  · intro a ha
    rcases List.mem_append.mp ha with ha | ha
    · have := rts1 a ha
      exact ⟨this.1, lt_of_lt_of_le this.2 s23⟩
    · have := rts2 a ha
      exact ⟨le_trans s12 this.1, this.2⟩
  · intro i hi
    rw [pre2 i (lt_of_lt_of_le hi s12), pre1 i hi]
  · intro i n hge hs b hb
    by_cases hmid : i < h2.size
    · rw [pre2 i hmid] at hs
      have := cl1 i n hge hs b hb
      exact ⟨this.1, lt_of_lt_of_le this.2 s23⟩
    · have := cl2 i n (le_of_not_lt hmid) hs b hb
      exact ⟨le_trans s12 this.1, this.2⟩

theorem allocPost_snoc (h h' : Heap) (roots : List Nat) (n : HNode)
    (hp : AllocPost h h' roots)
    (hn : ∀ b ∈ n.ptrs, h.size ≤ b ∧ b < h'.size) :
    AllocPost h (Heap.mk (h'.cells ++ [n])) [h'.size] := by
  obtain ⟨s12, _, pre1, cl1⟩ := hp
  have hsz := heap_size_concat h' n
  refine ⟨by omega, ?_, ?_, ?_⟩
  · intro a ha
    rcases List.mem_singleton.mp ha with rfl
    omega
  · intro i hi
    rw [heap_get_append_lt h' [n] i (by omega), pre1 i hi]
  · intro i m hge hs b hb
    by_cases hmid : i < h'.size
    · rw [heap_get_append_lt h' [n] i hmid] at hs
      have := cl1 i m hge hs b hb
      omega
    · by_cases htop : i = h'.size
      · subst htop
        rw [heap_get_concat h' n] at hs
        cases hs
        have := hn b hb
        omega
      · rw [show (Heap.mk (h'.cells ++ [n])).get i = none from
          heap_get_none _ i (by rw [hsz]; omega)] at hs
        exact Option.noConfusion hs

theorem closed_of_allocPost (h h' : Heap) (roots : List Nat)
    (hcl : Heap.closed h) (hp : AllocPost h h' roots) : Heap.closed h' := by
  intro a n hs b hb
  by_cases ha : a < h.size
  · rw [hp.2.2.1 a ha] at hs
    have := hcl a n hs b hb
    have := hp.1
    omega
  · exact (hp.2.2.2 a n (le_of_not_lt ha) hs b hb).2

theorem allocList_post (B : Nat)
    (IH : ∀ w : Value, sizeOf w < B → ∀ h : Heap,
      AllocPost h (alloc w h).2 [(alloc w h).1]) :
    ∀ l : List Value, sizeOf l ≤ B → ∀ h : Heap,
      AllocPost h (allocList l h).2 (allocList l h).1 := by
  intro l
  induction l with
  | nil => intro _ h; exact allocPost_nil h
  | cons x xs ih =>
      intro hs h
      have hx : sizeOf x < B := by
        have := sizeOf_mem_lt_list x (x :: xs) (List.mem_cons_self x xs)
        omega
      have hxs : sizeOf xs ≤ B := by
        have := sizeOf_rest_lt_cons' x xs
        omega
      have p1 := IH x hx h
      have p2 := ih hxs (alloc x h).2
      have ht := allocPost_trans _ _ _ _ _ p1 p2
      rw [List.singleton_append] at ht
      exact ht

theorem allocDict_post (B : Nat)
    (IH : ∀ w : Value, sizeOf w < B → ∀ h : Heap,
      AllocPost h (alloc w h).2 [(alloc w h).1]) :
    ∀ es : List (String × Value), sizeOf es ≤ B → ∀ h : Heap,
      AllocPost h (allocDict es h).2 ((allocDict es h).1.map Prod.snd) := by
  intro es
  induction es with
  | nil => intro _ h; exact allocPost_nil h
  | cons e rest ih =>
      intro hs h
      obtain ⟨k, v⟩ := e
      have hv : sizeOf v < B := by
        have := sizeOf_snd_lt_cons k v rest
        omega
      have hrest : sizeOf rest ≤ B := by
        have := sizeOf_rest_lt_cons (k, v) rest
        omega
      have p1 := IH v hv h
      have p2 := ih hrest (alloc v h).2
      have ht := allocPost_trans _ _ _ _ _ p1 p2
      rw [List.singleton_append] at ht
      exact ht

theorem alloc_post : ∀ (v : Value) (h : Heap),
    AllocPost h (alloc v h).2 [(alloc v h).1] := by
  have main : ∀ n (v : Value), sizeOf v ≤ n → ∀ h : Heap,
      AllocPost h (alloc v h).2 [(alloc v h).1] := by
    intro n
    induction n using Nat.strong_induction_on with
    | _ n IHn =>
      intro v hv h
      have IH : ∀ w : Value, sizeOf w < sizeOf v → ∀ h : Heap,
          AllocPost h (alloc w h).2 [(alloc w h).1] :=
        fun w hw h' => IHn (sizeOf w) (lt_of_lt_of_le hw hv) w le_rfl h'
      cases v with
      | vNull =>
          exact allocPost_snoc h h [] .hNull (allocPost_nil h)
            (by intro b hb; simp [HNode.ptrs] at hb)
      | vBool b =>
          exact allocPost_snoc h h [] (.hBool b) (allocPost_nil h)
            (by intro b hb; simp [HNode.ptrs] at hb)
      | vInt i =>
          exact allocPost_snoc h h [] (.hInt i) (allocPost_nil h)
            (by intro b hb; simp [HNode.ptrs] at hb)
      | vStr s =>
          exact allocPost_snoc h h [] (.hStr s) (allocPost_nil h)
            (by intro b hb; simp [HNode.ptrs] at hb)
      | vList l =>
          have hl := allocList_post (sizeOf (Value.vList l)) IH l
            (le_of_lt (sizeOf_elems_lt_vList l)) h
          exact allocPost_snoc h (allocList l h).2 (allocList l h).1
            (.hList (allocList l h).1) hl (fun b hb => hl.2.1 b hb)
      | vDict es =>
          have hd := allocDict_post (sizeOf (Value.vDict es)) IH es
            (le_of_lt (sizeOf_entries_lt_vDict es)) h
          exact allocPost_snoc h (allocDict es h).2
            ((allocDict es h).1.map Prod.snd)
            (.hDict (allocDict es h).1) hd (fun b hb => hd.2.1 b hb)
  exact fun v h => main (sizeOf v) v le_rfl h

theorem allocList_post' (l : List Value) (h : Heap) :
    AllocPost h (allocList l h).2 (allocList l h).1 :=
  allocList_post (sizeOf l) (fun w _ h' => alloc_post w h') l le_rfl h

theorem allocDict_post' (es : List (String × Value)) (h : Heap) :
    AllocPost h (allocDict es h).2 ((allocDict es h).1.map Prod.snd) :=
  allocDict_post (sizeOf es) (fun w _ h' => alloc_post w h') es le_rfl h

theorem sizeOf_value_pos (v : Value) : 0 < sizeOf v := by
  cases v <;> simp

theorem sizeOf_vlist_pos (l : List Value) : 0 < sizeOf l := by
  cases l <;> simp

theorem sizeOf_ventries_pos (es : List (String × Value)) : 0 < sizeOf es := by
  cases es <;> simp

/-- Reading is determined by the cells of any address set that is closed
under following pointers: two heaps that agree there read identically. -/
theorem read_agree (S : Nat → Prop) (h1 h2 : Heap)
    (hag : ∀ a, S a → h1.get a = h2.get a)
    (hcl : ∀ a n, S a → h1.get a = some n → ∀ b ∈ HNode.ptrs n, S b) :
    ∀ fuel,
      (∀ a, S a → readV fuel h1 a = readV fuel h2 a) ∧
      (∀ as, (∀ a ∈ as, S a) →
        readVList fuel h1 as = readVList fuel h2 as) ∧
      (∀ aes, (∀ kv ∈ aes, S kv.2) →
        readVDict fuel h1 aes = readVDict fuel h2 aes) := by
  intro fuel
  induction fuel with
  | zero => exact ⟨fun _ _ => rfl, fun _ _ => rfl, fun _ _ => rfl⟩
  | succ fuel ih =>
      obtain ⟨ihV, ihL, ihD⟩ := ih
      refine ⟨?_, ?_, ?_⟩
      · intro a hS
        cases hget : h1.get a with
        | none =>
            have hget2 : h2.get a = none := (hag a hS).symm.trans hget
            simp only [readV, hget, hget2]
        | some node =>
            have hget2 : h2.get a = some node := (hag a hS).symm.trans hget
            cases node with
            | hNull => simp only [readV, hget, hget2]
            | hBool b => simp only [readV, hget, hget2]
            | hInt n => simp only [readV, hget, hget2]
            | hStr s => simp only [readV, hget, hget2]
            | hList as =>
                simp only [readV, hget, hget2]
                rw [ihL as (fun b hb => hcl a _ hS hget b hb)]
            | hDict aes =>
                simp only [readV, hget, hget2]
                rw [ihD aes (fun kv hkv => hcl a _ hS hget kv.2
                  (List.mem_map_of_mem Prod.snd hkv))]
      · intro as hS
        cases as with
        | nil => rfl
        | cons a as =>
            simp only [readVList]
            rw [ihV a (hS a (List.mem_cons_self a as)),
              ihL as (fun b hb => hS b (List.mem_cons_of_mem a hb))]
      · intro aes hS
        cases aes with
        | nil => rfl
        | cons e aes =>
            obtain ⟨k, a⟩ := e
            simp only [readVDict]
            rw [ihV a (hS (k, a) (List.mem_cons_self _ _)),
              ihD aes (fun kv hkv => hS kv (List.mem_cons_of_mem _ hkv))]

/-- Allocating a pure value into a closed heap and reading the root back
recovers the value, for any fuel at least the value's size. -/
theorem alloc_readback_all : ∀ fuel : Nat,
    (∀ (v : Value) (h : Heap), Heap.closed h → sizeOf v ≤ fuel →
      readV fuel (alloc v h).2 (alloc v h).1 = some v) ∧
    (∀ (l : List Value) (h : Heap), Heap.closed h → sizeOf l ≤ fuel →
      readVList fuel (allocList l h).2 (allocList l h).1 = some l) ∧
    (∀ (es : List (String × Value)) (h : Heap), Heap.closed h → sizeOf es ≤ fuel →
      readVDict fuel (allocDict es h).2 (allocDict es h).1 = some es) := by
  intro fuel
  induction fuel with
  | zero =>
      refine ⟨?_, ?_, ?_⟩
      · intro v h _ hsz
        exact absurd hsz (Nat.not_le.mpr (sizeOf_value_pos v))
      · intro l h _ hsz
        exact absurd hsz (Nat.not_le.mpr (sizeOf_vlist_pos l))
      · intro es h _ hsz
        exact absurd hsz (Nat.not_le.mpr (sizeOf_ventries_pos es))
  | succ f ih =>
      obtain ⟨ihV, ihL, ihD⟩ := ih
      refine ⟨?_, ?_, ?_⟩
      · intro v h hcl hsz
        cases v with
        | vNull => simp [alloc, readV, heap_get_concat]
        | vBool b => simp [alloc, readV, heap_get_concat]
        | vInt n => simp [alloc, readV, heap_get_concat]
        | vStr s => simp [alloc, readV, heap_get_concat]
        | vList l =>
            have hsl : sizeOf l ≤ f := by
              have := sizeOf_elems_lt_vList l
              omega
            show readV (f + 1)
                (Heap.mk ((allocList l h).2.cells ++
                  [HNode.hList (allocList l h).1]))
                (allocList l h).2.size = some (Value.vList l)
            have hp := allocList_post' l h
            have hcl2 : Heap.closed (allocList l h).2 :=
              closed_of_allocPost h _ _ hcl hp
            have hag : ∀ a, a < (allocList l h).2.size →
                Heap.get (allocList l h).2 a =
                Heap.get (Heap.mk ((allocList l h).2.cells ++
                  [HNode.hList (allocList l h).1])) a :=
              fun a ha => (heap_get_append_lt _ _ a ha).symm
            have htrans := (read_agree (fun a => a < (allocList l h).2.size)
              (allocList l h).2
              (Heap.mk ((allocList l h).2.cells ++
                [HNode.hList (allocList l h).1]))
              hag (fun a n _ hg b hb => hcl2 a n hg b hb) f).2.1
              (allocList l h).1 (fun a ha => (hp.2.1 a ha).2)
            simp only [readV, heap_get_concat]
            rw [← htrans, ihL l h hcl hsl]
        | vDict es =>
            have hse : sizeOf es ≤ f := by
              have := sizeOf_entries_lt_vDict es
              omega
            show readV (f + 1)
                (Heap.mk ((allocDict es h).2.cells ++
                  [HNode.hDict (allocDict es h).1]))
                (allocDict es h).2.size = some (Value.vDict es)
            have hp := allocDict_post' es h
            have hcl2 : Heap.closed (allocDict es h).2 :=
              closed_of_allocPost h _ _ hcl hp
            have hag : ∀ a, a < (allocDict es h).2.size →
                Heap.get (allocDict es h).2 a =
                Heap.get (Heap.mk ((allocDict es h).2.cells ++
                  [HNode.hDict (allocDict es h).1])) a :=
              fun a ha => (heap_get_append_lt _ _ a ha).symm
            have htrans := (read_agree (fun a => a < (allocDict es h).2.size)
              (allocDict es h).2
              (Heap.mk ((allocDict es h).2.cells ++
                [HNode.hDict (allocDict es h).1]))
              hag (fun a n _ hg b hb => hcl2 a n hg b hb) f).2.2
              (allocDict es h).1
              (fun kv hkv => (hp.2.1 kv.2 (List.mem_map_of_mem Prod.snd hkv)).2)
            simp only [readV, heap_get_concat]
            rw [← htrans, ihD es h hcl hse]
      · intro l h hcl hsz
        cases l with
        | nil => rfl
        | cons x xs =>
            have hsx : sizeOf x ≤ f := by
              simp only [List.cons.sizeOf_spec] at hsz; omega
            have hsxs : sizeOf xs ≤ f := by
              simp only [List.cons.sizeOf_spec] at hsz; omega
            show readVList (f + 1) (allocList xs (alloc x h).2).2
                ((alloc x h).1 :: (allocList xs (alloc x h).2).1) =
              some (x :: xs)
            have hclax : Heap.closed (alloc x h).2 :=
              closed_of_allocPost h _ _ hcl (alloc_post x h)
            have hpq := allocList_post' xs (alloc x h).2
            have hag : ∀ a, a < (alloc x h).2.size →
                Heap.get (alloc x h).2 a =
                Heap.get (allocList xs (alloc x h).2).2 a :=
              fun a ha => (hpq.2.2.1 a ha).symm
            have htransV := (read_agree (fun a => a < (alloc x h).2.size)
              (alloc x h).2 (allocList xs (alloc x h).2).2
              hag (fun a n _ hg b hb => hclax a n hg b hb) f).1
              (alloc x h).1
              ((alloc_post x h).2.1 (alloc x h).1 (List.mem_cons_self _ _)).2
            simp only [readVList, ← htransV, ihV x h hcl hsx,
              ihL xs (alloc x h).2 hclax hsxs]
      · intro es h hcl hsz
        cases es with
        | nil => rfl
        | cons e rest =>
            obtain ⟨k, v⟩ := e
            have hsv : sizeOf v ≤ f := by
              simp only [List.cons.sizeOf_spec, Prod.mk.sizeOf_spec] at hsz
              omega
            have hsr : sizeOf rest ≤ f := by
              simp only [List.cons.sizeOf_spec, Prod.mk.sizeOf_spec] at hsz
              omega
            show readVDict (f + 1) (allocDict rest (alloc v h).2).2
                ((k, (alloc v h).1) :: (allocDict rest (alloc v h).2).1) =
              some ((k, v) :: rest)
            have hclax : Heap.closed (alloc v h).2 :=
              closed_of_allocPost h _ _ hcl (alloc_post v h)
            have hpq := allocDict_post' rest (alloc v h).2
            have hag : ∀ a, a < (alloc v h).2.size →
                Heap.get (alloc v h).2 a =
                Heap.get (allocDict rest (alloc v h).2).2 a :=
              fun a ha => (hpq.2.2.1 a ha).symm
            have htransV := (read_agree (fun a => a < (alloc v h).2.size)
              (alloc v h).2 (allocDict rest (alloc v h).2).2
              hag (fun a n _ hg b hb => hclax a n hg b hb) f).1
              (alloc v h).1
              ((alloc_post v h).2.1 (alloc v h).1 (List.mem_cons_self _ _)).2
            simp only [readVDict, ← htransV, ihV v h hcl hsv,
              ihD rest (alloc v h).2 hclax hsr]

/-- Corollary: reading back a freshly allocated value recovers it. -/
theorem alloc_readback (v : Value) (h : Heap) (hcl : Heap.closed h)
    (fuel : Nat) (hsz : sizeOf v ≤ fuel) :
    readV fuel (alloc v h).2 (alloc v h).1 = some v :=
  (alloc_readback_all fuel).1 v h hcl hsz

/-- C10: evaluating `array_of(item_schema)` yields the dict
`\x7bbsonType: "array", items: <copy>\x7d`; in the heap model, allocating
two array fields from the same item-schema value into a closed heap gives
two roots that both read back to a value structurally equal to
`array_of item_schema`, and the two copies share no cell: mutating any
cell of the first allocation's fresh region leaves the second root's
read-back unchanged, and mutating any cell outside the first allocation's
heap leaves the first root's read-back unchanged. -/
theorem c10_array_deepcopy_isolated (S : Value) (h0 : Heap)
    (hcl : Heap.closed h0)
    (a1 : Nat) (h1 : Heap) (a2 : Nat) (h2 : Heap)
    (e1 : array_ofH S h0 = (a1, h1))
    (e2 : array_ofH S h1 = (a2, h2)) :
    array_of S =
      Value.vDict [("bsonType", Value.vStr "array"), ("items", S)] ∧
    (∀ fuel, sizeOf (array_of S) ≤ fuel →
      readV fuel h2 a1 = some (array_of S) ∧
      readV fuel h2 a2 = some (array_of S)) ∧
    (∀ p n, h0.size ≤ p → p < h1.size →
      ∀ fuel, readV fuel (h2.write p n) a2 = readV fuel h2 a2) ∧
    (∀ p n, h1.size ≤ p →
      ∀ fuel, readV fuel (h2.write p n) a1 = readV fuel h2 a1) := by
  have ha1 : a1 = (alloc (array_of S) h0).1 := by
    rw [show alloc (array_of S) h0 = (a1, h1) from e1]
  have hh1 : h1 = (alloc (array_of S) h0).2 := by
    rw [show alloc (array_of S) h0 = (a1, h1) from e1]
  have ha2 : a2 = (alloc (array_of S) h1).1 := by
    rw [show alloc (array_of S) h1 = (a2, h2) from e2]
  have hh2 : h2 = (alloc (array_of S) h1).2 := by
    rw [show alloc (array_of S) h1 = (a2, h2) from e2]
  have hp1 : AllocPost h0 h1 [a1] := by
    rw [ha1, hh1]; exact alloc_post (array_of S) h0
  have hp2 : AllocPost h1 h2 [a2] := by
    rw [ha2, hh2]; exact alloc_post (array_of S) h1
  have hcl1 : Heap.closed h1 := closed_of_allocPost h0 h1 [a1] hcl hp1
  have hcl2 : Heap.closed h2 := closed_of_allocPost h1 h2 [a2] hcl1 hp2
  have ha1lt : a1 < h1.size := (hp1.2.1 a1 (List.mem_cons_self _ _)).2
  have ha2ge : h1.size ≤ a2 := (hp2.2.1 a2 (List.mem_cons_self _ _)).1
  refine ⟨rfl, ?_, ?_, ?_⟩
  · intro fuel hfuel
    constructor
    · have hback : readV fuel h1 a1 = some (array_of S) := by
        rw [ha1, hh1]; exact alloc_readback (array_of S) h0 hcl fuel hfuel
      have htr := (read_agree (fun a => a < h1.size) h1 h2
        (fun a ha => (hp2.2.2.1 a ha).symm)
        (fun a n _ hg b hb => hcl1 a n hg b hb) fuel).1 a1 ha1lt
      rw [← htr]; exact hback
    · rw [ha2, hh2]; exact alloc_readback (array_of S) h1 hcl1 fuel hfuel
  · intro p n hp0 hp1sz fuel
    exact (read_agree (fun a => h1.size ≤ a) (h2.write p n) h2
      (fun a ha => heap_write_get_ne h2 p a n
        (Nat.ne_of_lt (Nat.lt_of_lt_of_le hp1sz ha)))
      (fun a m ha hg b hb => by
        rw [heap_write_get_ne h2 p a n
          (Nat.ne_of_lt (Nat.lt_of_lt_of_le hp1sz ha))] at hg
        exact (hp2.2.2.2 a m ha hg b hb).1) fuel).1 a2 ha2ge
  · intro p n hpge fuel
    exact (read_agree (fun a => a < h1.size) (h2.write p n) h2
      (fun a ha => heap_write_get_ne h2 p a n
        (Nat.ne_of_gt (Nat.lt_of_lt_of_le ha hpge)))
      (fun a m ha hg b hb => by
        rw [heap_write_get_ne h2 p a n
          (Nat.ne_of_gt (Nat.lt_of_lt_of_le ha hpge)),
          hp2.2.2.1 a ha] at hg
        exact hcl1 a m hg b hb) fuel).1 a1 ha1lt

/-- Witness for C10: two array fields of a string item schema allocated
into the empty heap; overwriting a cell of the first copy leaves the
second root's read-back unchanged, and vice versa, while both roots read
back to the `array_of` value. -/
theorem c10_array_deepcopy_isolated_witness :
    readV 4000 (Heap.write (array_ofH (string_type false)
        (array_ofH (string_type false) (Heap.mk [])).2).2 2 HNode.hNull) 7 =
      readV 4000 (array_ofH (string_type false)
        (array_ofH (string_type false) (Heap.mk [])).2).2 7 ∧
    readV 4000 (Heap.write (array_ofH (string_type false)
        (array_ofH (string_type false) (Heap.mk [])).2).2 5 HNode.hNull) 3 =
      readV 4000 (array_ofH (string_type false)
        (array_ofH (string_type false) (Heap.mk [])).2).2 3 ∧
    readV 4000 (array_ofH (string_type false)
        (array_ofH (string_type false) (Heap.mk [])).2).2 3 =
      some (array_of (string_type false)) := by
  have hcl : Heap.closed (Heap.mk []) := by
    intro a n hg
    simp [Heap.get] at hg
  have h := c10_array_deepcopy_isolated (string_type false) (Heap.mk []) hcl
    3 (array_ofH (string_type false) (Heap.mk [])).2
    7 (array_ofH (string_type false)
        (array_ofH (string_type false) (Heap.mk [])).2).2
    rfl rfl
  refine ⟨h.2.2.1 2 HNode.hNull (by decide) (by decide) 4000,
    h.2.2.2 5 HNode.hNull (by decide) 4000,
    (h.2.1 4000 (by decide)).1⟩

end SyncValidators
